import Mathlib

/-!
# Fusion demo (`examples/fusion.cpp`): merge engine and control loop

A shallow embedding of the capture branch of `main` (the per-pixel fusion loop,
the staging buffer `to_append` and the final bulk append) and of the tick-level
control loop (`cam_pose`, `capture`, the `clear_callback`).

Conventions of the embedding.

* Scalars (`float` in the source) are elements of a linearly ordered field `α`
  (exact arithmetic, no rounding, no NaN).  The square root used by Eigen's
  `normalized()` is passed as a parameter `sqrt : α → α`; the theorems that
  depend on it are stated for `ℝ` and `Real.sqrt`.
* An Eigen `3 × N` matrix is a `List (Vec3 α)` (one entry per column).  A column
  read is `col`, a column write is `List.set`.  An access past the last column,
  undefined in the source, reads the zero column and writes nothing; the theorems
  about the value at an index assume the index in range.
* The subtraction inside the depth test is a parameter of `pixelStepWith`, so that
  what is proved about the test holds for the rounded `float` subtraction of the
  source as well; `pixelStep` is the body with the exact subtraction.
* A `pangolin::ManagedImage<size_t>` of size `w × h` is its cell function
  `x y ↦ cell`, with the sentinel `empty = 2^64 - 1` of the source.
* The `#pragma omp parallel for` loop, whose two bodies are `omp critical`
  sections, is a sequence of atomic per-pixel steps: `fuseOrder` runs the steps
  in a given order of the pixels, `fuse` runs them in the order of the two
  nested `for` loops.
-/

namespace Fusion

/-! ## Data model -/

/-- One column of an Eigen `3 × N` matrix. -/
@[ext]
structure Vec3 (α : Type) where
  x : α
  y : α
  z : α

/-- The parallel column arrays of a `cilantro::PointCloud3f`. -/
@[ext]
structure PointCloud (α : Type) where
  points : List (Vec3 α)
  normals : List (Vec3 α)
  colors : List (Vec3 α)

section Defs

variable {α : Type} [LinearOrderedField α]

/-- The zero column. -/
def Vec3.zero : Vec3 α := ⟨0, 0, 0⟩

/-- Sum of two columns (Eigen `a + b`). -/
def Vec3.add (a b : Vec3 α) : Vec3 α := ⟨a.x + b.x, a.y + b.y, a.z + b.z⟩

/-- Product of a scalar and a column (Eigen `c * a`). -/
def Vec3.scale (c : α) (a : Vec3 α) : Vec3 α := ⟨c * a.x, c * a.y, c * a.z⟩

/-- Eigen `squaredNorm()`. -/
def Vec3.squaredNorm (a : Vec3 α) : α := a.x * a.x + a.y * a.y + a.z * a.z

/-- Eigen `norm()`: the square root of `squaredNorm()`. -/
def Vec3.norm (sqrt : α → α) (a : Vec3 α) : α := sqrt a.squaredNorm

/-- Modelled from the spec: `normalized()` is library code declared outside this file;
the spec's `normalize` divides a column by its norm. As in Eigen, with
`z = squaredNorm()` the column is divided by `sqrt z` when `z > 0` and is returned
as it is otherwise (a column of zero norm cannot be rescaled). -/
def Vec3.normalized (sqrt : α → α) (a : Vec3 α) : Vec3 α :=
  let z := a.squaredNorm
  if 0 < z then ⟨a.x / sqrt z, a.y / sqrt z, a.z / sqrt z⟩ else a

/-- Column read `m.col(i)`. -/
def col (m : List (Vec3 α)) (i : Nat) : Vec3 α := m.getD i Vec3.zero

/-- The sentinel `std::numeric_limits<std::size_t>::max()` of an index map cell. -/
def empty : Nat := 2 ^ 64 - 1

/-- Modelled from the spec: `PointCloud::isEmpty` is declared outside this file; the
model is empty when it holds no point. -/
def PointCloud.isEmpty (c : PointCloud α) : Bool := c.points.isEmpty

/-- Modelled from the spec: `PointCloud::clear` is declared outside this file; it
resets the cloud to empty (every column array is emptied). -/
def PointCloud.clear (_c : PointCloud α) : PointCloud α := ⟨[], [], []⟩

/-- Modelled from the spec: `PointCloud::append` is declared outside this file; the
trimmed staging buffer is bulk-appended at the tail of the model, column array by
column array, and the model grows by exactly the staged count. -/
def PointCloud.append (c d : PointCloud α) : PointCloud α :=
  ⟨c.points ++ d.points, c.normals ++ d.normals, c.colors ++ d.colors⟩

/-- The inputs of one fusion pass: the sizes `w`, `h`, the transformed clouds, the
two index maps and the two fusion constants. -/
structure FuseInput (α : Type) where
  w : Nat
  h : Nat
  frame_t : PointCloud α
  model_t : PointCloud α
  frame_index_map : Nat → Nat → Nat
  model_index_map : Nat → Nat → Nat
  fusion_weight : α
  fusion_dist_thresh : α

/-- The constant `fusion_weight_compl = 1.0f - fusion_weight`. -/
def FuseInput.fusion_weight_compl (I : FuseInput α) : α := 1 - I.fusion_weight

/-- The mutable state of the fusion loop. -/
structure FuseState (α : Type) where
  model : PointCloud α
  to_append : PointCloud α
  app_ind : Nat

/-- The first critical section: the model columns at `mi` are overwritten by the
blend with the frame columns at `fi`; the normal is renormalized. -/
def blendAt (sqrt : α → α) (I : FuseInput α) (model : PointCloud α) (mi fi : Nat) :
    PointCloud α :=
  { points := model.points.set mi
      (Vec3.add (Vec3.scale I.fusion_weight_compl (col model.points mi))
        (Vec3.scale I.fusion_weight (col I.frame_t.points fi)))
    normals := model.normals.set mi
      (Vec3.normalized sqrt
        (Vec3.add (Vec3.scale I.fusion_weight_compl (col model.normals mi))
          (Vec3.scale I.fusion_weight (col I.frame_t.normals fi))))
    colors := model.colors.set mi
      (Vec3.add (Vec3.scale I.fusion_weight_compl (col model.colors mi))
        (Vec3.scale I.fusion_weight (col I.frame_t.colors fi))) }

/-- The second critical section: the frame columns at `fi` are copied to slot
`app_ind` of the staging buffer. -/
def stageAt (I : FuseInput α) (to_append : PointCloud α) (app_ind fi : Nat) : PointCloud α :=
  { points := to_append.points.set app_ind (col I.frame_t.points fi)
    normals := to_append.normals.set app_ind (col I.frame_t.normals fi)
    colors := to_append.colors.set app_ind (col I.frame_t.colors fi) }

/-- The body of the two nested loops at pixel `p = (x, y)`, with the subtraction
`model_depth - view_depth` of the depth test computed by `sub`. -/
def pixelStepWith (sub : α → α → α) (sqrt : α → α) (I : FuseInput α) (s : FuseState α)
    (p : Nat × Nat) : FuseState α :=
  if I.frame_index_map p.1 p.2 = empty then s
  else if I.model_index_map p.1 p.2 ≠ empty then
    let view_depth := (col I.frame_t.points (I.frame_index_map p.1 p.2)).z
    let model_depth := (col I.model_t.points (I.model_index_map p.1 p.2)).z
    if |sub model_depth view_depth| < I.fusion_dist_thresh then
      { s with model := blendAt sqrt I s.model (I.model_index_map p.1 p.2)
                  (I.frame_index_map p.1 p.2) }
    else s
  else
    { s with
      to_append := stageAt I s.to_append s.app_ind (I.frame_index_map p.1 p.2)
      app_ind := s.app_ind + 1 }

/-- The body of the two nested loops at pixel `p = (x, y)`, in exact arithmetic. -/
def pixelStep (sqrt : α → α) (I : FuseInput α) (s : FuseState α) (p : Nat × Nat) :
    FuseState α :=
  pixelStepWith (fun a b => a - b) sqrt I s p

/-- The pixels in the order of the loops: `y` outer, `x` inner. -/
def pixels (w h : Nat) : List (Nat × Nat) :=
  (List.range h).flatMap (fun y => (List.range w).map (fun x => (x, y)))

/-- The staging buffer after the three `resize(Eigen::NoChange, w*h)` calls. The
entries are uninitialised in the source and are taken as zero columns. -/
def initBuffer (w h : Nat) : PointCloud α :=
  ⟨List.replicate (w * h) Vec3.zero, List.replicate (w * h) Vec3.zero,
    List.replicate (w * h) Vec3.zero⟩

/-- The loop state on entry: `to_append` pre-sized, `app_ind = 0`. -/
def initState (I : FuseInput α) (model : PointCloud α) : FuseState α :=
  ⟨model, initBuffer I.w I.h, 0⟩

/-- The loop state after the per-pixel steps ran in the order `ps`. -/
def runLoop (sqrt : α → α) (I : FuseInput α) (model : PointCloud α)
    (ps : List (Nat × Nat)) : FuseState α :=
  ps.foldl (pixelStep sqrt I) (initState I model)

/-- The three `conservativeResize(Eigen::NoChange, app_ind)` calls. -/
def trim (c : PointCloud α) (app_ind : Nat) : PointCloud α :=
  ⟨c.points.take app_ind, c.normals.take app_ind, c.colors.take app_ind⟩

/-- The fusion pass with the per-pixel steps serialized in the order `ps`: the loop,
the trim of the staging buffer and `model.append(to_append)`. -/
def fuseOrder (sqrt : α → α) (I : FuseInput α) (model : PointCloud α)
    (ps : List (Nat × Nat)) : PointCloud α :=
  let s := runLoop sqrt I model ps
  s.model.append (trim s.to_append s.app_ind)

/-- The fusion pass in the order of the source loops. -/
def fuse (sqrt : α → α) (I : FuseInput α) (model : PointCloud α) : PointCloud α :=
  fuseOrder sqrt I model (pixels I.w I.h)

/-! ### Pixel classes read off the guards of the loop body -/

/-- The depth test `std::abs(model_depth - view_depth) < fusion_dist_thresh`. -/
def depthClose (I : FuseInput α) (p : Nat × Nat) : Prop :=
  |(col I.model_t.points (I.model_index_map p.1 p.2)).z
      - (col I.frame_t.points (I.frame_index_map p.1 p.2)).z| < I.fusion_dist_thresh

instance (I : FuseInput α) (p : Nat × Nat) : Decidable (depthClose I p) := by
  unfold depthClose; infer_instance

/-- The pixels that reach the blend: both cells non-empty and the depth test passes. -/
def isCorrespondence (I : FuseInput α) (p : Nat × Nat) : Prop :=
  I.frame_index_map p.1 p.2 ≠ empty ∧ I.model_index_map p.1 p.2 ≠ empty ∧ depthClose I p

instance (I : FuseInput α) (p : Nat × Nat) : Decidable (isCorrespondence I p) := by
  unfold isCorrespondence; infer_instance

/-- The pixels that reach the staging write: frame cell non-empty, model cell empty. -/
def isStaged (I : FuseInput α) (p : Nat × Nat) : Prop :=
  I.frame_index_map p.1 p.2 ≠ empty ∧ I.model_index_map p.1 p.2 = empty

instance (I : FuseInput α) (p : Nat × Nat) : Decidable (isStaged I p) := by
  unfold isStaged; infer_instance

/-- The class "novel" in the words of the specification: the frame cell is non-empty
and either the model cell is empty or the depth mismatch is not strictly below the
threshold. -/
def novelAsSpecified (I : FuseInput α) (p : Nat × Nat) : Prop :=
  I.frame_index_map p.1 p.2 ≠ empty ∧
    (I.model_index_map p.1 p.2 = empty ∨ ¬ depthClose I p)

instance (I : FuseInput α) (p : Nat × Nat) : Decidable (novelAsSpecified I p) := by
  unfold novelAsSpecified; infer_instance

end Defs

/-! ## Control loop -/

section Loop

variable {α : Type} [LinearOrderedField α] {P : Type}

/-- The external collaborators of the control loop, each one declared outside this
file: rigid transforms (`Identity`, `inverse`, `transformed`), the projective
index map builder and the pose estimator (projective ICP). -/
structure Externals (α : Type) (P : Type) where
  identity : P
  inverse : P → P
  transformed : PointCloud α → P → PointCloud α
  pointsToIndexMap : List (Vec3 α) → Nat → Nat → Nat → Nat → Nat
  estimateTransformation : PointCloud α → PointCloud α → P → P

/-- The constants of `main`: image size and fusion parameters. -/
structure Settings (α : Type) where
  w : Nat
  h : Nat
  fusion_weight : α
  fusion_dist_thresh : α

/-- The values set in `main`: `w = 640`, `h = 480`, `fusion_weight = 0.1f`,
`fusion_dist_thresh = 0.02f`. -/
def mainSettings : Settings α := ⟨640, 480, 1 / 10, 1 / 50⟩

/-- The state carried from one iteration of the main loop to the next. -/
structure LoopState (α : Type) (P : Type) where
  model : PointCloud α
  cam_pose : P
  capture : Bool

/-- What one iteration receives from outside: the cloud built by `fromRGBDImages`
from the grabbed images, and the keys handled while the iteration renders
(`a` runs `capture_callback`, `d` runs `clear_callback`). -/
structure TickInput (α : Type) where
  frame : PointCloud α
  keyA : Bool
  keyD : Bool

/-- The state before the first iteration: empty model, identity pose, no capture. -/
def initLoop (E : Externals α P) : LoopState α P := ⟨⟨[], [], []⟩, E.identity, false⟩

/-- The block under `// Localize`. -/
def localize (E : Externals α P) (frame : PointCloud α) (s : LoopState α P) :
    LoopState α P :=
  if !s.model.isEmpty then
    { s with cam_pose :=
        E.inverse (E.estimateTransformation frame s.model (E.inverse s.cam_pose)) }
  else s

/-- The block under `// Map`. -/
def mapStep (sqrt : α → α) (E : Externals α P) (c : Settings α) (frame : PointCloud α)
    (s : LoopState α P) : LoopState α P :=
  if s.capture then
    if s.model.isEmpty then
      { model := frame, cam_pose := E.identity, capture := false }
    else
      let frame_t := E.transformed frame s.cam_pose
      let model_t := E.transformed s.model (E.inverse s.cam_pose)
      let model_index_map := E.pointsToIndexMap model_t.points c.w c.h
      let frame_index_map := E.pointsToIndexMap frame.points c.w c.h
      { model := fuse sqrt
          ⟨c.w, c.h, frame_t, model_t, frame_index_map, model_index_map,
            c.fusion_weight, c.fusion_dist_thresh⟩ s.model
        cam_pose := s.cam_pose
        capture := false }
  else s

/-- The function `capture_callback`, bound to the flag `capture`. -/
def capture_callback (s : LoopState α P) : LoopState α P := { s with capture := true }

/-- The function `clear_callback`, bound to `model`. -/
def clear_callback (s : LoopState α P) : LoopState α P := { s with model := s.model.clear }

/-- The keyboard callbacks that run while the iteration renders. -/
def handleKeys (i : TickInput α) (s : LoopState α P) : LoopState α P :=
  let s1 := if i.keyA then capture_callback s else s
  if i.keyD then clear_callback s1 else s1

/-- One iteration of the main loop. -/
def tick (sqrt : α → α) (E : Externals α P) (c : Settings α) (s : LoopState α P)
    (i : TickInput α) : LoopState α P :=
  handleKeys i (mapStep sqrt E c i.frame (localize E i.frame s))

/-- The state after the iterations fed with the inputs `is`, from the initial state. -/
def run (sqrt : α → α) (E : Externals α P) (c : Settings α) (is : List (TickInput α)) :
    LoopState α P :=
  is.foldl (tick sqrt E c) (initLoop E)

end Loop

/-! ## Closed forms used by the proofs -/

section Aux

variable {α : Type} [LinearOrderedField α]

/-- What a per-pixel step does to the model: the blend at a correspondence pixel,
nothing elsewhere. -/
def modelStep (sqrt : α → α) (I : FuseInput α) (m : PointCloud α) (p : Nat × Nat) :
    PointCloud α :=
  if isCorrespondence I p then
    blendAt sqrt I m (I.model_index_map p.1 p.2) (I.frame_index_map p.1 p.2)
  else m

/-- The pixels of `ps` that reach the staging write, in the order of `ps`. -/
def stagedPixels (I : FuseInput α) (ps : List (Nat × Nat)) : List (Nat × Nat) :=
  ps.filter (fun p => decide (isStaged I p))

/-- The frame point (position, normal, color) seen at pixel `p`. -/
def framePoint (I : FuseInput α) (p : Nat × Nat) : Vec3 α × Vec3 α × Vec3 α :=
  (col I.frame_t.points (I.frame_index_map p.1 p.2),
    col I.frame_t.normals (I.frame_index_map p.1 p.2),
    col I.frame_t.colors (I.frame_index_map p.1 p.2))

/-- The frame columns copied by the staging writes of `ps`, as a cloud. -/
def stagedCloud (I : FuseInput α) (ps : List (Nat × Nat)) : PointCloud α :=
  ⟨(stagedPixels I ps).map (fun p => (framePoint I p).1),
    (stagedPixels I ps).map (fun p => (framePoint I p).2.1),
    (stagedPixels I ps).map (fun p => (framePoint I p).2.2)⟩

/-- The points of a cloud from index `n` on, as (position, normal, color) triples,
for a cloud whose three column arrays had `np`, `nn`, `nc` columns before. -/
def tailFrom (c : PointCloud α) (np nn nc : Nat) : List (Vec3 α × Vec3 α × Vec3 α) :=
  List.zip (c.points.drop np) (List.zip (c.normals.drop nn) (c.colors.drop nc))

end Aux

/-! ## Concrete inputs -/

section Examples

variable {α : Type} [LinearOrderedField α]

/-- A one-point cloud. -/
def onePoint (position normal color : Vec3 α) : PointCloud α :=
  ⟨[position], [normal], [color]⟩

/-- A `1 × 1` image whose pixel sees frame point 0 at depth 1 and model point 0 at
depth 2: both cells non-empty, depth mismatch 1, threshold 1/50. -/
def farInput : FuseInput α :=
  { w := 1, h := 1
    frame_t := onePoint ⟨0, 0, 1⟩ ⟨0, 0, 1⟩ ⟨1, 0, 0⟩
    model_t := onePoint ⟨0, 0, 2⟩ ⟨0, 0, 1⟩ ⟨0, 1, 0⟩
    frame_index_map := fun _ _ => 0
    model_index_map := fun _ _ => 0
    fusion_weight := 1 / 10
    fusion_dist_thresh := 1 / 50 }

/-- The model fused with `farInput` (pose identity: it equals `model_t`). -/
def farModel : PointCloud α := onePoint ⟨0, 0, 2⟩ ⟨0, 0, 1⟩ ⟨0, 1, 0⟩

/-- A `1 × 1` image whose pixel sees frame point 0 at depth 1 and model point 0 at
depth 5/4, with fusion weight 1/4 and threshold 1/4: both cells non-empty, depth
mismatch exactly the threshold. Every value, and the difference of the two depths,
is a binary `float`, so the source computes the same mismatch. -/
def edgeInput : FuseInput α :=
  { w := 1, h := 1
    frame_t := onePoint ⟨0, 0, 1⟩ ⟨0, 0, 1⟩ ⟨1, 0, 0⟩
    model_t := onePoint ⟨0, 0, 5 / 4⟩ ⟨0, 0, 1⟩ ⟨0, 1, 0⟩
    frame_index_map := fun _ _ => 0
    model_index_map := fun _ _ => 0
    fusion_weight := 1 / 4
    fusion_dist_thresh := 1 / 4 }

/-- The model fused with `edgeInput`. -/
def edgeModel : PointCloud α := onePoint ⟨0, 0, 5 / 4⟩ ⟨0, 0, 1⟩ ⟨0, 1, 0⟩

/-- A `2 × 1` image: pixel `(0,0)` sees frame point 0 and model point 0 at the same
depth (a correspondence), pixel `(1,0)` sees frame point 1 and no model point. -/
def mixedInput : FuseInput α :=
  { w := 2, h := 1
    frame_t := ⟨[⟨0, 0, 1⟩, ⟨1, 0, 1⟩], [⟨0, 1, 0⟩, ⟨0, 0, 1⟩], [⟨1, 0, 0⟩, ⟨0, 0, 1⟩]⟩
    model_t := onePoint ⟨1, 1, 1⟩ ⟨0, 0, 1⟩ ⟨0, 1, 0⟩
    frame_index_map := fun x _ => x
    model_index_map := fun x _ => if x = 0 then 0 else empty
    fusion_weight := 1 / 10
    fusion_dist_thresh := 1 / 50 }

/-- The model fused with `mixedInput`. -/
def mixedModel : PointCloud α := onePoint ⟨1, 1, 1⟩ ⟨0, 0, 1⟩ ⟨0, 1, 0⟩

/-- A `2 × 1` image: pixel `(1,0)` sees frame point 0 and no model point, pixel
`(0,0)` sees model point 0 and no frame point. -/
def singleInput : FuseInput α :=
  { w := 2, h := 1
    frame_t := onePoint ⟨1, 0, 1⟩ ⟨0, 1, 0⟩ ⟨1, 0, 0⟩
    model_t := onePoint ⟨0, 0, 1⟩ ⟨0, 0, 1⟩ ⟨0, 1, 0⟩
    frame_index_map := fun x _ => if x = 1 then 0 else empty
    model_index_map := fun x _ => if x = 0 then 0 else empty
    fusion_weight := 1 / 10
    fusion_dist_thresh := 1 / 50 }

/-- The model fused with `singleInput`. -/
def singleModel : PointCloud α := onePoint ⟨0, 0, 1⟩ ⟨0, 0, 1⟩ ⟨0, 1, 0⟩

/-- A `1 × 2` image (two rows, which the parallel loop over `y` hands to different
workers) whose two pixels see frame points 0 and 1 and both see model point 0, all
at depth 1, with fusion weight 1/2 and threshold 1/4: two correspondence pixels on
one model index. Every value, and every blend of them, is a binary `float`. -/
def overlapInput : FuseInput α :=
  { w := 1, h := 2
    frame_t := ⟨[⟨0, 0, 1⟩, ⟨1, 0, 1⟩], [⟨0, 0, 1⟩, ⟨0, 0, 1⟩], [⟨1, 0, 0⟩, ⟨0, 0, 1⟩]⟩
    model_t := onePoint ⟨0, 0, 1⟩ ⟨0, 0, 1⟩ ⟨0, 1, 0⟩
    frame_index_map := fun _ y => y
    model_index_map := fun _ _ => 0
    fusion_weight := 1 / 2
    fusion_dist_thresh := 1 / 4 }

/-- The model fused with `overlapInput`. -/
def overlapModel : PointCloud α := onePoint ⟨0, 0, 1⟩ ⟨0, 0, 1⟩ ⟨0, 1, 0⟩

/-- A `1 × 2` image (two rows): pixel `(0,0)` sees frame point 0 and model point 0 at
the same depth (a correspondence), pixel `(0,1)` sees frame point 1 and no model
point; fusion weight 1/2, threshold 1/4. -/
def rowsInput : FuseInput α :=
  { w := 1, h := 2
    frame_t := ⟨[⟨0, 0, 1⟩, ⟨1, 0, 1⟩], [⟨0, 1, 0⟩, ⟨0, 0, 1⟩], [⟨1, 0, 0⟩, ⟨0, 0, 1⟩]⟩
    model_t := onePoint ⟨1, 1, 1⟩ ⟨0, 0, 1⟩ ⟨0, 1, 0⟩
    frame_index_map := fun _ y => y
    model_index_map := fun _ y => if y = 0 then 0 else empty
    fusion_weight := 1 / 2
    fusion_dist_thresh := 1 / 4 }

/-- The model fused with `rowsInput`. -/
def rowsModel : PointCloud α := onePoint ⟨1, 1, 1⟩ ⟨0, 0, 1⟩ ⟨0, 1, 0⟩

/-- A `1 × 1` image whose pixel sees frame point 0 and model point 0 at the same
depth, with unit normals `(0,0,-1)` and `(0,0,1)` and fusion weight 1/2. -/
def opposedInput : FuseInput α :=
  { w := 1, h := 1
    frame_t := onePoint ⟨0, 0, 1⟩ ⟨0, 0, -1⟩ ⟨1, 0, 0⟩
    model_t := onePoint ⟨0, 0, 1⟩ ⟨0, 0, 1⟩ ⟨0, 1, 0⟩
    frame_index_map := fun _ _ => 0
    model_index_map := fun _ _ => 0
    fusion_weight := 1 / 2
    fusion_dist_thresh := 1 / 50 }

/-- The model fused with `opposedInput`. -/
def opposedModel : PointCloud α := onePoint ⟨0, 0, 1⟩ ⟨0, 0, 1⟩ ⟨0, 1, 0⟩

/-- A two-point model with unit normals. -/
def sameModel : PointCloud α :=
  ⟨[⟨0, 0, 1⟩, ⟨1, 0, 2⟩], [⟨0, 0, 1⟩, ⟨0, 1, 0⟩], [⟨1, 0, 0⟩, ⟨0, 0, 1⟩]⟩

/-- A `2 × 1` image re-observing `sameModel` from the identity pose: the frame and the
transformed model are the model itself, the two index maps are the same. -/
def sameInput : FuseInput α :=
  { w := 2, h := 1
    frame_t := sameModel
    model_t := sameModel
    frame_index_map := fun x _ => x
    model_index_map := fun x _ => x
    fusion_weight := 1 / 10
    fusion_dist_thresh := 1 / 50 }

/-- A stand-in for the external collaborators: a pose is a translation along the
viewing axis, the estimator reports a camera that drifts by one unit at each
iteration, and no point projects into the image. -/
def driftExternals : Externals α α :=
  { identity := 0
    inverse := fun t => -t
    transformed := fun c t =>
      ⟨c.points.map (fun v => ⟨v.x, v.y, v.z + t⟩), c.normals, c.colors⟩
    pointsToIndexMap := fun _ _ _ _ _ => empty
    estimateTransformation := fun _ _ guess => guess - 1 }

/-- Three iterations on the same one-point frame: `a` is pressed during the first,
the second seeds the model, `d` is pressed during the third. -/
def clearRun : List (TickInput α) :=
  [⟨onePoint ⟨0, 0, 1⟩ ⟨0, 0, 1⟩ ⟨1, 0, 0⟩, true, false⟩,
    ⟨onePoint ⟨0, 0, 1⟩ ⟨0, 0, 1⟩ ⟨1, 0, 0⟩, false, false⟩,
    ⟨onePoint ⟨0, 0, 1⟩ ⟨0, 0, 1⟩ ⟨1, 0, 0⟩, false, true⟩]

/-- The run `clearRun` followed by an iteration without any key. -/
def clearRunThenIdle : List (TickInput α) :=
  clearRun ++ [⟨onePoint ⟨0, 0, 1⟩ ⟨0, 0, 1⟩ ⟨1, 0, 0⟩, false, false⟩]

/-- Two iterations before any seed: no key during the first, `a` is pressed during
the second. The model is still empty at the end. -/
def idleRun : List (TickInput α) :=
  [⟨onePoint ⟨0, 0, 1⟩ ⟨0, 0, 1⟩ ⟨1, 0, 0⟩, false, false⟩,
    ⟨onePoint ⟨0, 0, 1⟩ ⟨0, 0, 1⟩ ⟨1, 0, 0⟩, true, false⟩]

/-- The run `clearRun` followed by an iteration during which `a` is pressed: the
model is empty, the capture flag is set and the pose is the last estimate. -/
def recaptureRun : List (TickInput α) :=
  clearRun ++ [⟨onePoint ⟨0, 0, 1⟩ ⟨0, 0, 1⟩ ⟨1, 0, 0⟩, true, false⟩]

/-- An iteration on the one-point frame without any key. -/
def idleTick : TickInput α := ⟨onePoint ⟨0, 0, 1⟩ ⟨0, 0, 1⟩ ⟨1, 0, 0⟩, false, false⟩

end Examples

/-! ## Columns -/

section VecLemmas

variable {α : Type} [LinearOrderedField α]

theorem col_set_self (l : List (Vec3 α)) (i : Nat) (v : Vec3 α) (h : i < l.length) :
    col (l.set i v) i = v := by
  simp [col, List.getD_eq_getElem?_getD, List.getElem?_set, h]

theorem col_set_ne (l : List (Vec3 α)) (i j : Nat) (v : Vec3 α) (h : i ≠ j) :
    col (l.set i v) j = col l j := by
  simp [col, List.getD_eq_getElem?_getD, List.getElem?_set, h]

theorem take_set_succ {β : Type} (l : List β) (n : Nat) (v : β) (h : n < l.length) :
    (l.set n v).take (n + 1) = l.take n ++ [v] := by
  rw [List.take_succ]
  have h1 : (l.set n v).take n = l.take n := by
    apply List.ext_getElem?
    intro k
    by_cases hk : k < n
    · have hne : n ≠ k := by omega
      simp [List.getElem?_take, hk, List.getElem?_set, hne]
    · simp [List.getElem?_take, hk]
  simp [List.getElem?_set, h, h1]

/-- Blending a column with itself gives the column back. -/
theorem blend_self (w : α) (v : Vec3 α) :
    Vec3.add (Vec3.scale (1 - w) v) (Vec3.scale w v) = v := by
  ext <;> simp [Vec3.add, Vec3.scale] <;> ring

theorem squaredNorm_nonneg (v : Vec3 α) : 0 ≤ v.squaredNorm := by
  unfold Vec3.squaredNorm
  nlinarith [mul_self_nonneg v.x, mul_self_nonneg v.y, mul_self_nonneg v.z]

theorem eq_zero_of_squaredNorm_le (v : Vec3 α) (h : ¬ 0 < v.squaredNorm) : v = Vec3.zero := by
  have h0 : v.squaredNorm = 0 := le_antisymm (not_lt.mp h) (squaredNorm_nonneg v)
  unfold Vec3.squaredNorm at h0
  have hx := mul_self_nonneg v.x
  have hy := mul_self_nonneg v.y
  have hz := mul_self_nonneg v.z
  have ex : v.x * v.x = 0 := by linarith
  have ey : v.y * v.y = 0 := by linarith
  have ez : v.z * v.z = 0 := by linarith
  ext
  · simpa [Vec3.zero] using mul_self_eq_zero.mp ex
  · simpa [Vec3.zero] using mul_self_eq_zero.mp ey
  · simpa [Vec3.zero] using mul_self_eq_zero.mp ez

/-- Over the reals, `normalized()` of a column of positive squared norm has norm 1. -/
theorem norm_normalized_of_pos (v : Vec3 ℝ) (h : 0 < v.squaredNorm) :
    Vec3.norm Real.sqrt (Vec3.normalized Real.sqrt v) = 1 := by
  have hs : 0 < Real.sqrt v.squaredNorm := Real.sqrt_pos.mpr h
  have hsq : Real.sqrt v.squaredNorm * Real.sqrt v.squaredNorm = v.squaredNorm :=
    Real.mul_self_sqrt h.le
  have key : (Vec3.normalized Real.sqrt v).squaredNorm = 1 := by
    simp only [Vec3.normalized, h, if_true]
    simp only [Vec3.squaredNorm]
    have h2 : v.x * v.x + v.y * v.y + v.z * v.z = v.squaredNorm := rfl
    field_simp
    rw [h2, hsq]
    exact div_self (ne_of_gt h)
  simp [Vec3.norm, key]

/-- Over the reals, `normalized()` returns a column of norm 1 or the zero column. -/
theorem normalized_unit_or_zero (v : Vec3 ℝ) :
    Vec3.norm Real.sqrt (Vec3.normalized Real.sqrt v) = 1 ∨
      Vec3.normalized Real.sqrt v = Vec3.zero := by
  by_cases h : 0 < v.squaredNorm
  · exact Or.inl (norm_normalized_of_pos v h)
  · right
    simp only [Vec3.normalized, h, if_false]
    exact eq_zero_of_squaredNorm_le v h

/-- Over the reals, `normalized()` leaves a column of squared norm 1 as it is. -/
theorem normalized_of_unit (v : Vec3 ℝ) (h : v.squaredNorm = 1) :
    Vec3.normalized Real.sqrt v = v := by
  simp [Vec3.normalized, h]

end VecLemmas

/-! ## The fusion loop in closed form -/

section LoopLemmas

variable {α : Type} [LinearOrderedField α] (sqrt : α → α) (I : FuseInput α)

theorem pixelStep_eq (s : FuseState α) (p : Nat × Nat) :
    pixelStep sqrt I s p =
      if isStaged I p then
        { s with
          to_append := stageAt I s.to_append s.app_ind (I.frame_index_map p.1 p.2)
          app_ind := s.app_ind + 1 }
      else { s with model := modelStep sqrt I s.model p } := by
  unfold pixelStep pixelStepWith modelStep isStaged isCorrespondence depthClose
  by_cases h1 : I.frame_index_map p.1 p.2 = empty
  · simp [h1]
  · by_cases h2 : I.model_index_map p.1 p.2 = empty
    · simp [h1, h2]
    · by_cases h3 : |(col I.model_t.points (I.model_index_map p.1 p.2)).z
          - (col I.frame_t.points (I.frame_index_map p.1 p.2)).z| < I.fusion_dist_thresh
      · simp [h1, h2, h3]
      · simp [h1, h2, h3]

theorem foldl_pixelStep_model (ps : List (Nat × Nat)) (s : FuseState α) :
    (ps.foldl (pixelStep sqrt I) s).model = ps.foldl (modelStep sqrt I) s.model := by
  induction ps generalizing s with
  | nil => rfl
  | cons p ps ih =>
    simp only [List.foldl_cons]
    rw [ih, pixelStep_eq]
    by_cases h : isStaged I p
    · have hc : ¬ isCorrespondence I p := fun hc => hc.2.1 h.2
      simp [h, modelStep, hc]
    · simp [h]

theorem foldl_pixelStep_app_ind (ps : List (Nat × Nat)) (s : FuseState α) :
    (ps.foldl (pixelStep sqrt I) s).app_ind = s.app_ind + (stagedPixels I ps).length := by
  induction ps generalizing s with
  | nil => simp [stagedPixels]
  | cons p ps ih =>
    simp only [List.foldl_cons]
    rw [ih, pixelStep_eq]
    by_cases h : isStaged I p
    · simp [h, stagedPixels]; omega
    · simp [h, stagedPixels]

theorem foldl_pixelStep_trim (ps : List (Nat × Nat)) (s : FuseState α)
    (hp : s.app_ind + (stagedPixels I ps).length ≤ s.to_append.points.length)
    (hn : s.app_ind + (stagedPixels I ps).length ≤ s.to_append.normals.length)
    (hc : s.app_ind + (stagedPixels I ps).length ≤ s.to_append.colors.length) :
    trim (ps.foldl (pixelStep sqrt I) s).to_append (ps.foldl (pixelStep sqrt I) s).app_ind
      = (trim s.to_append s.app_ind).append (stagedCloud I ps) := by
  induction ps generalizing s with
  | nil => simp [stagedCloud, stagedPixels, PointCloud.append]
  | cons p ps ih =>
    simp only [List.foldl_cons]
    by_cases h : isStaged I p
    · have hl : (stagedPixels I (p :: ps)).length = (stagedPixels I ps).length + 1 := by
        simp [stagedPixels, h]
      rw [hl] at hp hn hc
      have hs : pixelStep sqrt I s p = { s with
          to_append := stageAt I s.to_append s.app_ind (I.frame_index_map p.1 p.2)
          app_ind := s.app_ind + 1 } := by rw [pixelStep_eq]; simp [h]
      rw [hs, ih _ (by simp [stageAt]; omega) (by simp [stageAt]; omega)
        (by simp [stageAt]; omega)]
      simp only [trim, stageAt, PointCloud.append, stagedCloud, framePoint]
      rw [take_set_succ _ _ _ (by omega), take_set_succ _ _ _ (by omega),
        take_set_succ _ _ _ (by omega)]
      simp [stagedPixels, h]
    · have hl : stagedPixels I (p :: ps) = stagedPixels I ps := by
        simp [stagedPixels, h]
      rw [hl] at hp hn hc
      have hs : pixelStep sqrt I s p = { s with model := modelStep sqrt I s.model p } := by
        rw [pixelStep_eq]; simp [h]
      rw [hs, ih { s with model := modelStep sqrt I s.model p } hp hn hc]
      simp [stagedCloud, hl]

theorem length_pixels (w h : Nat) : (pixels w h).length = w * h := by
  unfold pixels
  induction h with
  | zero => simp
  | succ n ih =>
    rw [List.range_succ, List.flatMap_append, List.length_append, ih]
    simp [Nat.mul_succ]

theorem mem_pixels (w h : Nat) (p : Nat × Nat) : p ∈ pixels w h ↔ p.1 < w ∧ p.2 < h := by
  unfold pixels
  simp only [List.mem_flatMap, List.mem_range, List.mem_map]
  constructor
  · rintro ⟨y, hy, x, hx, rfl⟩
    exact ⟨hx, hy⟩
  · rintro ⟨hx, hy⟩
    exact ⟨p.2, hy, p.1, hx, rfl⟩

omit [LinearOrderedField α] in
theorem length_stagedPixels_le (ps : List (Nat × Nat)) :
    (stagedPixels I ps).length ≤ ps.length := by
  unfold stagedPixels
  exact List.length_filter_le _ _

/-- The fusion pass in closed form, for an order `ps` no longer than the buffer. -/
theorem fuseOrder_eq (model : PointCloud α) (ps : List (Nat × Nat))
    (hlen : ps.length ≤ I.w * I.h) :
    fuseOrder sqrt I model ps
      = (ps.foldl (modelStep sqrt I) model).append (stagedCloud I ps) := by
  have hle := length_stagedPixels_le I ps
  unfold fuseOrder runLoop
  simp only []
  rw [foldl_pixelStep_trim sqrt I ps (initState I model)
    (by simp [initState, initBuffer]; omega) (by simp [initState, initBuffer]; omega)
    (by simp [initState, initBuffer]; omega), foldl_pixelStep_model]
  simp [initState, trim, PointCloud.append]

end LoopLemmas

/-! ## The model columns under the blend steps -/

section ModelLemmas

variable {α : Type} [LinearOrderedField α] (sqrt : α → α) (I : FuseInput α)

theorem col_eq (l : List (Vec3 α)) (i : Nat) : col l i = (l[i]?).getD Vec3.zero := by
  simp [col, List.getD_eq_getElem?_getD]

theorem col_congr (l l2 : List (Vec3 α)) (i : Nat) (h : l2[i]? = l[i]?) :
    col l2 i = col l i := by
  rw [col_eq, col_eq, h]

theorem modelStep_length (m : PointCloud α) (p : Nat × Nat) :
    (modelStep sqrt I m p).points.length = m.points.length ∧
    (modelStep sqrt I m p).normals.length = m.normals.length ∧
    (modelStep sqrt I m p).colors.length = m.colors.length := by
  unfold modelStep
  split <;> simp [blendAt]

theorem foldl_modelStep_length (ps : List (Nat × Nat)) (m : PointCloud α) :
    (ps.foldl (modelStep sqrt I) m).points.length = m.points.length ∧
    (ps.foldl (modelStep sqrt I) m).normals.length = m.normals.length ∧
    (ps.foldl (modelStep sqrt I) m).colors.length = m.colors.length := by
  induction ps generalizing m with
  | nil => simp
  | cons p ps ih =>
    simp only [List.foldl_cons]
    obtain ⟨h1, h2, h3⟩ := ih (modelStep sqrt I m p)
    obtain ⟨g1, g2, g3⟩ := modelStep_length sqrt I m p
    exact ⟨h1.trans g1, h2.trans g2, h3.trans g3⟩

/-- A step that is not a correspondence targeting `i` leaves column `i` alone. -/
theorem modelStep_untouched (m : PointCloud α) (p : Nat × Nat) (i : Nat)
    (h : isCorrespondence I p → I.model_index_map p.1 p.2 ≠ i) :
    (modelStep sqrt I m p).points[i]? = m.points[i]? ∧
    (modelStep sqrt I m p).normals[i]? = m.normals[i]? ∧
    (modelStep sqrt I m p).colors[i]? = m.colors[i]? := by
  unfold modelStep
  by_cases hc : isCorrespondence I p
  · have hne := h hc
    simp [hc, blendAt, List.getElem?_set, hne]
  · simp [hc]

theorem foldl_modelStep_untouched (ps : List (Nat × Nat)) (m : PointCloud α) (i : Nat)
    (h : ∀ p ∈ ps, isCorrespondence I p → I.model_index_map p.1 p.2 ≠ i) :
    (ps.foldl (modelStep sqrt I) m).points[i]? = m.points[i]? ∧
    (ps.foldl (modelStep sqrt I) m).normals[i]? = m.normals[i]? ∧
    (ps.foldl (modelStep sqrt I) m).colors[i]? = m.colors[i]? := by
  induction ps generalizing m with
  | nil => simp
  | cons p ps ih =>
    simp only [List.foldl_cons]
    obtain ⟨h1, h2, h3⟩ := ih (modelStep sqrt I m p)
      (fun q hq => h q (List.mem_cons_of_mem _ hq))
    obtain ⟨g1, g2, g3⟩ := modelStep_untouched sqrt I m p i (h p (List.mem_cons_self _ _))
    exact ⟨h1.trans g1, h2.trans g2, h3.trans g3⟩

/-- A correspondence step writes the blend at its model index. -/
theorem modelStep_target (m : PointCloud α) (p : Nat × Nat) (hc : isCorrespondence I p) :
    (I.model_index_map p.1 p.2 < m.points.length →
      (modelStep sqrt I m p).points[I.model_index_map p.1 p.2]? =
        some (Vec3.add
          (Vec3.scale (1 - I.fusion_weight) (col m.points (I.model_index_map p.1 p.2)))
          (Vec3.scale I.fusion_weight (col I.frame_t.points (I.frame_index_map p.1 p.2))))) ∧
    (I.model_index_map p.1 p.2 < m.normals.length →
      (modelStep sqrt I m p).normals[I.model_index_map p.1 p.2]? =
        some (Vec3.normalized sqrt (Vec3.add
          (Vec3.scale (1 - I.fusion_weight) (col m.normals (I.model_index_map p.1 p.2)))
          (Vec3.scale I.fusion_weight (col I.frame_t.normals (I.frame_index_map p.1 p.2)))))) ∧
    (I.model_index_map p.1 p.2 < m.colors.length →
      (modelStep sqrt I m p).colors[I.model_index_map p.1 p.2]? =
        some (Vec3.add
          (Vec3.scale (1 - I.fusion_weight) (col m.colors (I.model_index_map p.1 p.2)))
          (Vec3.scale I.fusion_weight (col I.frame_t.colors (I.frame_index_map p.1 p.2))))) := by
  unfold modelStep
  simp only [hc, if_true, blendAt, FuseInput.fusion_weight_compl]
  refine ⟨fun h => ?_, fun h => ?_, fun h => ?_⟩ <;> simp [List.getElem?_set, h]

/-- The model columns at the index of a correspondence pixel `p` that no other
correspondence pixel of a duplicate-free order targets: one blend of the old
columns. -/
theorem foldl_modelStep_unique (ps : List (Nat × Nat)) (m : PointCloud α) (p : Nat × Nat)
    (hp : p ∈ ps) (hnd : ps.Nodup) (hc : isCorrespondence I p)
    (hu : ∀ q ∈ ps, q ≠ p → isCorrespondence I q →
      I.model_index_map q.1 q.2 ≠ I.model_index_map p.1 p.2) :
    (I.model_index_map p.1 p.2 < m.points.length →
      (ps.foldl (modelStep sqrt I) m).points[I.model_index_map p.1 p.2]? =
        some (Vec3.add
          (Vec3.scale (1 - I.fusion_weight) (col m.points (I.model_index_map p.1 p.2)))
          (Vec3.scale I.fusion_weight (col I.frame_t.points (I.frame_index_map p.1 p.2))))) ∧
    (I.model_index_map p.1 p.2 < m.normals.length →
      (ps.foldl (modelStep sqrt I) m).normals[I.model_index_map p.1 p.2]? =
        some (Vec3.normalized sqrt (Vec3.add
          (Vec3.scale (1 - I.fusion_weight) (col m.normals (I.model_index_map p.1 p.2)))
          (Vec3.scale I.fusion_weight (col I.frame_t.normals (I.frame_index_map p.1 p.2)))))) ∧
    (I.model_index_map p.1 p.2 < m.colors.length →
      (ps.foldl (modelStep sqrt I) m).colors[I.model_index_map p.1 p.2]? =
        some (Vec3.add
          (Vec3.scale (1 - I.fusion_weight) (col m.colors (I.model_index_map p.1 p.2)))
          (Vec3.scale I.fusion_weight (col I.frame_t.colors (I.frame_index_map p.1 p.2))))) := by
  obtain ⟨l1, l2, rfl⟩ := List.append_of_mem hp
  have hnd2 : p ∉ l1 ∧ p ∉ l2 := by
    have := List.nodup_append.mp hnd
    obtain ⟨_, h2, h3⟩ := this
    constructor
    · intro hin
      exact h3 hin (List.mem_cons_self _ _)
    · exact (List.nodup_cons.mp h2).1
  have hu1 : ∀ q ∈ l1, isCorrespondence I q →
      I.model_index_map q.1 q.2 ≠ I.model_index_map p.1 p.2 := fun q hq =>
    hu q (List.mem_append_left _ hq) (fun e => hnd2.1 (e ▸ hq))
  have hu2 : ∀ q ∈ l2, isCorrespondence I q →
      I.model_index_map q.1 q.2 ≠ I.model_index_map p.1 p.2 := fun q hq =>
    hu q (List.mem_append_right _ (List.mem_cons_of_mem _ hq)) (fun e => hnd2.2 (e ▸ hq))
  simp only [List.foldl_append, List.foldl_cons]
  obtain ⟨a1, a2, a3⟩ := foldl_modelStep_untouched sqrt I l1 m _ hu1
  obtain ⟨b1, b2, b3⟩ := foldl_modelStep_length sqrt I l1 m
  obtain ⟨c1, c2, c3⟩ := modelStep_target sqrt I (l1.foldl (modelStep sqrt I) m) p hc
  obtain ⟨d1, d2, d3⟩ := foldl_modelStep_untouched sqrt I l2
    (modelStep sqrt I (l1.foldl (modelStep sqrt I) m) p) _ hu2
  refine ⟨fun h => ?_, fun h => ?_, fun h => ?_⟩
  · rw [d1, c1 (by omega), col_congr _ _ _ a1]
  · rw [d2, c2 (by omega), col_congr _ _ _ a2]
  · rw [d3, c3 (by omega), col_congr _ _ _ a3]

theorem blendAt_comm (m : PointCloud α) (i f j g : Nat) (h : i ≠ j) :
    blendAt sqrt I (blendAt sqrt I m i f) j g = blendAt sqrt I (blendAt sqrt I m j g) i f := by
  have h2 : j ≠ i := fun e => h e.symm
  simp only [blendAt, col_set_ne _ _ _ _ h, col_set_ne _ _ _ _ h2]
  rw [List.set_comm _ _ _ h, List.set_comm _ _ m.normals h, List.set_comm _ _ m.colors h]

/-- Two steps commute when they are not two distinct correspondences on one index. -/
theorem modelStep_comm (m : PointCloud α) (x y : Nat × Nat)
    (h : isCorrespondence I x → isCorrespondence I y → x ≠ y →
      I.model_index_map x.1 x.2 ≠ I.model_index_map y.1 y.2) :
    modelStep sqrt I (modelStep sqrt I m x) y = modelStep sqrt I (modelStep sqrt I m y) x := by
  by_cases hxy : x = y
  · rw [hxy]
  · unfold modelStep
    by_cases hx : isCorrespondence I x
    · by_cases hy : isCorrespondence I y
      · simp only [hx, hy, if_true]
        exact blendAt_comm sqrt I m _ _ _ _ (h hx hy hxy)
      · simp [hx, hy]
    · simp [hx]

/-- The blended model does not depend on the order of the steps when no two
correspondence pixels share a model index. -/
theorem foldl_modelStep_perm (ps qs : List (Nat × Nat)) (m : PointCloud α)
    (hperm : ps.Perm qs)
    (hinj : ∀ x ∈ ps, ∀ y ∈ ps, isCorrespondence I x → isCorrespondence I y → x ≠ y →
      I.model_index_map x.1 x.2 ≠ I.model_index_map y.1 y.2) :
    ps.foldl (modelStep sqrt I) m = qs.foldl (modelStep sqrt I) m :=
  List.Perm.foldl_eq' hperm
    (fun x hx y hy z => modelStep_comm sqrt I z x y (hinj x hx y hy)) m

end ModelLemmas

/-! ## Claims -/

section Claims

variable {α : Type} [LinearOrderedField α]

theorem nodup_pixels (w h : Nat) : (pixels w h).Nodup := by
  unfold pixels
  rw [List.nodup_flatMap]
  refine ⟨fun y _ => ?_, ?_⟩
  · exact List.Nodup.map (fun a b e => by simpa using e) (List.nodup_range w)
  · refine List.Pairwise.imp_of_mem ?_ (List.nodup_range h)
    intro a b _ _ hab
    simp only [Function.onFun, List.disjoint_left, List.mem_map, List.mem_range]
    rintro p ⟨x, _, rfl⟩ ⟨x2, _, e⟩
    exact hab (by simpa using (congrArg Prod.snd e).symm)

theorem isCorrespondence_mixed : isCorrespondence (mixedInput : FuseInput ℝ) (0, 0) := by
  refine ⟨?_, ?_, ?_⟩
  · simp [mixedInput, empty]
  · simp [mixedInput, empty]
  · simp [depthClose, mixedInput, onePoint, col]

theorem foldl_modelStep_id (sqrt : α → α) (I : FuseInput α) (ps : List (Nat × Nat))
    (m : PointCloud α) (h : ∀ p ∈ ps, ¬ isCorrespondence I p) :
    ps.foldl (modelStep sqrt I) m = m := by
  induction ps generalizing m with
  | nil => rfl
  | cons p ps ih =>
    simp only [List.foldl_cons]
    have hp : modelStep sqrt I m p = m := by
      simp [modelStep, h p (List.mem_cons_self _ _)]
    rw [hp]
    exact ih m (fun q hq => h q (List.mem_cons_of_mem _ hq))

theorem stagedCloud_of_none (I : FuseInput α) (ps : List (Nat × Nat))
    (h : ∀ p ∈ ps, ¬ isStaged I p) : stagedCloud I ps = ⟨[], [], []⟩ := by
  have he : stagedPixels I ps = [] := by
    unfold stagedPixels
    rw [List.filter_eq_nil_iff]
    intro p hp
    simpa using h p hp
  simp [stagedCloud, he]

omit [LinearOrderedField α] in
theorem append_nil_cloud (m : PointCloud α) : m.append ⟨[], [], []⟩ = m := by
  simp [PointCloud.append]

theorem foldl_pixelStep_capacity (sqrt : α → α) (I : FuseInput α) (ps : List (Nat × Nat))
    (s : FuseState α) :
    (ps.foldl (pixelStep sqrt I) s).to_append.points.length = s.to_append.points.length ∧
    (ps.foldl (pixelStep sqrt I) s).to_append.normals.length = s.to_append.normals.length ∧
    (ps.foldl (pixelStep sqrt I) s).to_append.colors.length = s.to_append.colors.length := by
  induction ps generalizing s with
  | nil => simp
  | cons p ps ih =>
    simp only [List.foldl_cons]
    obtain ⟨h1, h2, h3⟩ := ih (pixelStep sqrt I s p)
    rw [h1, h2, h3, pixelStep_eq]
    split <;> simp [stageAt]

/-- The pre-existing columns of the fused model are those of the blended model. -/
theorem fuseOrder_getElem? (sqrt : α → α) (I : FuseInput α) (model : PointCloud α)
    (ps : List (Nat × Nat)) (hperm : ps.Perm (pixels I.w I.h)) (i : Nat) :
    (i < model.points.length →
      (fuseOrder sqrt I model ps).points[i]? = (ps.foldl (modelStep sqrt I) model).points[i]?) ∧
    (i < model.normals.length →
      (fuseOrder sqrt I model ps).normals[i]? = (ps.foldl (modelStep sqrt I) model).normals[i]?) ∧
    (i < model.colors.length →
      (fuseOrder sqrt I model ps).colors[i]? = (ps.foldl (modelStep sqrt I) model).colors[i]?) := by
  rw [fuseOrder_eq _ _ _ _ (by rw [hperm.length_eq, length_pixels])]
  obtain ⟨h1, h2, h3⟩ := foldl_modelStep_length sqrt I ps model
  simp only [PointCloud.append]
  refine ⟨fun h => ?_, fun h => ?_, fun h => ?_⟩
  · exact List.getElem?_append_left (by omega)
  · exact List.getElem?_append_left (by omega)
  · exact List.getElem?_append_left (by omega)

/-- The appended tail of the fused model: the frame points at the staged pixels. -/
theorem fuseOrder_tail (sqrt : α → α) (I : FuseInput α) (model : PointCloud α)
    (ps : List (Nat × Nat)) (hperm : ps.Perm (pixels I.w I.h)) :
    tailFrom (fuseOrder sqrt I model ps) model.points.length model.normals.length
      model.colors.length = (stagedPixels I ps).map (framePoint I) := by
  rw [fuseOrder_eq _ _ _ _ (by rw [hperm.length_eq, length_pixels])]
  obtain ⟨h1, h2, h3⟩ := foldl_modelStep_length sqrt I ps model
  simp only [tailFrom, PointCloud.append, stagedCloud]
  rw [List.drop_left' h1, List.drop_left' h2, List.drop_left' h3, List.zip_map',
    List.zip_map']

omit [LinearOrderedField α] in
theorem mem_stagedPixels (I : FuseInput α) (ps : List (Nat × Nat)) (p : Nat × Nat) :
    p ∈ stagedPixels I ps ↔ p ∈ ps ∧ isStaged I p := by
  simp [stagedPixels]

omit [LinearOrderedField α] in
/-- With a single staged pixel in a duplicate-free order, the staged list is that
pixel alone. -/
theorem stagedPixels_single (I : FuseInput α) (ps : List (Nat × Nat)) (p0 : Nat × Nat)
    (hnd : ps.Nodup) (hp0 : p0 ∈ ps) (h0 : isStaged I p0)
    (hq : ∀ q ∈ ps, q ≠ p0 → ¬ isStaged I q) : stagedPixels I ps = [p0] := by
  have hmem : ∀ q, q ∈ stagedPixels I ps ↔ q = p0 := by
    intro q
    rw [mem_stagedPixels]
    constructor
    · rintro ⟨hq1, hq2⟩
      by_contra hne
      exact hq q hq1 hne hq2
    · rintro rfl
      exact ⟨hp0, h0⟩
  have hnd2 : (stagedPixels I ps).Nodup := hnd.filter _
  generalize stagedPixels I ps = l at hmem hnd2
  match l, hmem, hnd2 with
  | [], hmem, _ => exact absurd ((hmem p0).mpr rfl) (List.not_mem_nil _)
  | [a], hmem, _ =>
    have := (hmem a).mp (List.mem_cons_self _ _)
    rw [this]
  | a :: b :: t, hmem, hnd2 =>
    have ha := (hmem a).mp (List.mem_cons_self _ _)
    have hb := (hmem b).mp (List.mem_cons_of_mem _ (List.mem_cons_self _ _))
    have hn := (List.nodup_cons.mp hnd2).1
    rw [ha, ← hb] at hn
    exact absurd (List.mem_cons_self _ _) hn

theorem runLoop_app_ind_le (sqrt : α → α) (I : FuseInput α) (model : PointCloud α)
    (ps : List (Nat × Nat)) : (runLoop sqrt I model ps).app_ind ≤ ps.length := by
  unfold runLoop
  rw [foldl_pixelStep_app_ind]
  have := length_stagedPixels_le I ps
  simp only [initState]
  omega

theorem set_col_self (l : List (Vec3 α)) (i : Nat) : l.set i (col l i) = l := by
  by_cases h : i < l.length
  · apply List.ext_getElem?
    intro k
    by_cases hk : i = k
    · subst hk
      simp [List.getElem?_set, h, col, List.getD_eq_getElem?_getD]
    · simp [List.getElem?_set, hk]
  · exact List.set_eq_of_length_le (not_lt.mp h)

theorem mem_of_col (l : List (Vec3 α)) (i : Nat) (h : i < l.length) : col l i ∈ l := by
  have : col l i = l[i] := by simp [col, List.getD_eq_getElem?_getD, h]
  rw [this]
  exact List.getElem_mem h

theorem foldl_fixed {β γ : Type} (f : β → γ → β) (m : β) (ps : List γ)
    (h : ∀ p ∈ ps, f m p = m) : ps.foldl f m = m := by
  induction ps with
  | nil => rfl
  | cons p ps ih =>
    simp only [List.foldl_cons]
    rw [h p (List.mem_cons_self _ _)]
    exact ih (fun q hq => h q (List.mem_cons_of_mem _ hq))

/-- Blending a model with itself at one index, unit normals: nothing changes. -/
theorem blendAt_self (I : FuseInput ℝ) (model : PointCloud ℝ) (i : Nat)
    (hf : I.frame_t = model) (hunit : ∀ n ∈ model.normals, n.squaredNorm = 1) :
    blendAt Real.sqrt I model i i = model := by
  unfold blendAt
  simp only [FuseInput.fusion_weight_compl, hf, blend_self]
  have hn : model.normals.set i (Vec3.normalized Real.sqrt (col model.normals i))
      = model.normals := by
    by_cases h : i < model.normals.length
    · rw [normalized_of_unit _ (hunit _ (mem_of_col _ _ h)), set_col_self]
    · exact List.set_eq_of_length_le (not_lt.mp h)
  rw [hn, set_col_self, set_col_self]

/-- A correspondence step on index `i` leaves there a normal of norm 1 or zero. -/
theorem modelStep_normal (I : FuseInput ℝ) (m : PointCloud ℝ) (p : Nat × Nat)
    (hc : isCorrespondence I p) (v : Vec3 ℝ)
    (hv : (modelStep Real.sqrt I m p).normals[I.model_index_map p.1 p.2]? = some v) :
    Vec3.norm Real.sqrt v = 1 ∨ v = Vec3.zero := by
  by_cases h : I.model_index_map p.1 p.2 < m.normals.length
  · rw [(modelStep_target Real.sqrt I m p hc).2.1 h] at hv
    rw [← Option.some.inj hv]
    exact normalized_unit_or_zero _
  · have hl := (modelStep_length Real.sqrt I m p).2.1
    rw [List.getElem?_eq_none (by omega)] at hv
    cases hv

theorem foldl_modelStep_normal (I : FuseInput ℝ) (ps : List (Nat × Nat)) (m : PointCloud ℝ)
    (i : Nat)
    (h : (∀ v, m.normals[i]? = some v → Vec3.norm Real.sqrt v = 1 ∨ v = Vec3.zero) ∨
      ∃ p ∈ ps, isCorrespondence I p ∧ I.model_index_map p.1 p.2 = i) :
    ∀ v, (ps.foldl (modelStep Real.sqrt I) m).normals[i]? = some v →
      Vec3.norm Real.sqrt v = 1 ∨ v = Vec3.zero := by
  induction ps generalizing m with
  | nil =>
    rcases h with h | ⟨p, hp, _⟩
    · exact h
    · cases hp
  | cons p ps ih =>
    simp only [List.foldl_cons]
    apply ih
    by_cases hp : isCorrespondence I p ∧ I.model_index_map p.1 p.2 = i
    · left
      intro v hv
      rw [← hp.2] at hv
      exact modelStep_normal I m p hp.1 v hv
    · rcases h with h | ⟨q, hq, hq2⟩
      · left
        intro v hv
        rw [(modelStep_untouched Real.sqrt I m p i (fun hc e => hp ⟨hc, e⟩)).2.1] at hv
        exact h v hv
      · rcases List.mem_cons.mp hq with e | hq3
        · exact absurd (e ▸ hq2) hp
        · exact Or.inr ⟨q, hq3, hq2⟩

/-- The fusion pass never empties a non-empty model. -/
theorem fuse_isEmpty (sqrt : α → α) (I : FuseInput α) (model : PointCloud α)
    (h : model.isEmpty = false) : (fuse sqrt I model).isEmpty = false := by
  have hl : (fuse sqrt I model).points.length
      = model.points.length + (stagedCloud I (pixels I.w I.h)).points.length := by
    unfold fuse
    rw [fuseOrder_eq _ _ _ _ (by rw [length_pixels])]
    simp [PointCloud.append, (foldl_modelStep_length sqrt I (pixels I.w I.h) model).1]
  have h0 : model.points ≠ [] := by
    intro e
    simp [PointCloud.isEmpty, e] at h
  have h1 : 0 < model.points.length := List.length_pos.mpr h0
  have h2 : (fuse sqrt I model).points ≠ [] := by
    intro e
    rw [e] at hl
    simp at hl
    omega
  simpa [PointCloud.isEmpty] using h2

/-- One iteration without the `d` key keeps: an empty model has the identity pose. -/
theorem tick_keeps_identity {P : Type} (sqrt : α → α) (E : Externals α P) (c : Settings α)
    (s : LoopState α P) (i : TickInput α)
    (hinv : s.model.isEmpty = true → s.cam_pose = E.identity) (hd : i.keyD = false)
    (he : (tick sqrt E c s i).model.isEmpty = true) :
    (tick sqrt E c s i).cam_pose = E.identity := by
  have hk : ∀ t : LoopState α P, (handleKeys i t).model = t.model ∧
      (handleKeys i t).cam_pose = t.cam_pose := by
    intro t
    unfold handleKeys
    cases i.keyA <;> simp [hd, capture_callback]
  unfold tick at he ⊢
  rw [(hk _).1] at he
  rw [(hk _).2]
  by_cases hm : s.model.isEmpty = true
  · have hl : localize E i.frame s = s := by simp [localize, hm]
    rw [hl] at he ⊢
    unfold mapStep
    by_cases hc : s.capture = true
    · simp [hc, hm]
    · simp [hc, hinv hm]
  · have hm2 : s.model.isEmpty = false := by simpa using hm
    exfalso
    have hlm : (localize E i.frame s).model = s.model := by
      simp [localize, hm2]
    unfold mapStep at he
    by_cases hc : (localize E i.frame s).capture = true
    · simp [hc, hlm, hm2, fuse_isEmpty sqrt _ _ hm2] at he
    · simp [hc, hlm, hm2] at he

theorem foldl_tick_keeps_identity {P : Type} (sqrt : α → α) (E : Externals α P)
    (c : Settings α) (is : List (TickInput α)) (s : LoopState α P)
    (hinv : s.model.isEmpty = true → s.cam_pose = E.identity)
    (hd : ∀ i ∈ is, i.keyD = false) :
    (is.foldl (tick sqrt E c) s).model.isEmpty = true →
      (is.foldl (tick sqrt E c) s).cam_pose = E.identity := by
  induction is generalizing s with
  | nil => exact hinv
  | cons i is ih =>
    simp only [List.foldl_cons]
    exact ih (tick sqrt E c s i)
      (tick_keeps_identity sqrt E c s i hinv (hd i (List.mem_cons_self _ _)))
      (fun j hj => hd j (List.mem_cons_of_mem _ hj))

/-- The point count after the fusion pass, for every order of the steps. -/
theorem fuseOrder_points_length (sqrt : α → α) (I : FuseInput α) (model : PointCloud α)
    (ps : List (Nat × Nat)) (hperm : ps.Perm (pixels I.w I.h)) :
    (fuseOrder sqrt I model ps).points.length =
      model.points.length + (pixels I.w I.h).countP (fun p => decide (isStaged I p)) := by
  rw [fuseOrder_eq _ _ _ _ (by rw [hperm.length_eq, length_pixels])]
  simp only [PointCloud.append, List.length_append, stagedCloud, List.length_map, stagedPixels]
  rw [(foldl_modelStep_length sqrt I ps model).1, ← List.countP_eq_length_filter,
    hperm.countP_eq]

/-- Claim C1, as stated, fails: on `farInput` the only pixel has both cells non-empty
and a depth mismatch above the threshold, so the specification counts it as novel,
yet the model keeps its single point. -/
theorem model_count_counterexample :
    (fuse Real.sqrt farInput farModel).points.length ≠
      (farModel : PointCloud ℝ).points.length +
        (pixels 1 1).countP (fun p => decide (novelAsSpecified (farInput : FuseInput ℝ) p)) := by
  have hn : novelAsSpecified (farInput : FuseInput ℝ) (0, 0) := by
    refine ⟨by simp [farInput, empty], Or.inr ?_⟩
    simp [depthClose, farInput, onePoint, col]
    norm_num
  have hs : ¬ isStaged (farInput : FuseInput ℝ) (0, 0) := by
    simp [isStaged, farInput, empty]
  have hp : pixels 1 1 = [(0, 0)] := by decide
  have hf : (fuse Real.sqrt farInput farModel).points.length = 1 := by
    unfold fuse
    rw [fuseOrder_points_length Real.sqrt farInput farModel _ (List.Perm.refl _)]
    have h2 : pixels (farInput : FuseInput ℝ).w (farInput : FuseInput ℝ).h = [(0, 0)] := hp
    rw [h2]
    simp only [List.countP_cons, List.countP_nil, hs, decide_False]
    rfl
  rw [hf, hp]
  simp only [List.countP_cons, List.countP_nil, hn, decide_True]
  simp [farModel, onePoint]

/-- Claim C1 (amended): for every order of the per-pixel steps, the point count after
the fusion pass is the count before plus the number of pixels whose frame cell is
non-empty and whose model cell is empty. -/
theorem model_count_after_fuse (sqrt : α → α) (I : FuseInput α) (model : PointCloud α)
    (ps : List (Nat × Nat)) (hperm : ps.Perm (pixels I.w I.h)) :
    (fuseOrder sqrt I model ps).points.length =
      model.points.length + (pixels I.w I.h).countP (fun p => decide (isStaged I p)) :=
  fuseOrder_points_length sqrt I model ps hperm

/-- Witness of `model_count_after_fuse` on `mixedInput`, steps in reverse order. -/
theorem model_count_after_fuse_witness :
    [(1, 0), (0, 0)].Perm (pixels (mixedInput : FuseInput ℝ).w (mixedInput : FuseInput ℝ).h) ∧
    (fuseOrder Real.sqrt mixedInput mixedModel [(1, 0), (0, 0)]).points.length =
      (mixedModel : PointCloud ℝ).points.length +
        (pixels (mixedInput : FuseInput ℝ).w (mixedInput : FuseInput ℝ).h).countP
          (fun p => decide (isStaged (mixedInput : FuseInput ℝ) p)) :=
  ⟨by decide, model_count_after_fuse Real.sqrt mixedInput mixedModel [(1, 0), (0, 0)]
    (by decide)⟩

/-- On `edgeInput` the depth mismatch of the pixel equals the threshold. -/
theorem edge_mismatch :
    |(col (edgeInput : FuseInput ℝ).model_t.points ((edgeInput : FuseInput ℝ).model_index_map 0 0)).z
        - (col (edgeInput : FuseInput ℝ).frame_t.points
            ((edgeInput : FuseInput ℝ).frame_index_map 0 0)).z|
      = (edgeInput : FuseInput ℝ).fusion_dist_thresh := by
  have hd : |(5 / 4 : ℝ) - 1| = 1 / 4 := by norm_num [abs_of_nonneg]
  simp [edgeInput, onePoint, col, hd]

/-- Claim C2, as stated, fails: on `edgeInput` both cells of the pixel are non-empty
and the depth mismatch equals the threshold, yet the frame point is not appended:
the fusion pass returns the model as it was. -/
theorem depth_threshold_counterexample :
    (edgeInput : FuseInput ℝ).frame_index_map 0 0 ≠ empty ∧
    (edgeInput : FuseInput ℝ).model_index_map 0 0 ≠ empty ∧
    |(col (edgeInput : FuseInput ℝ).model_t.points ((edgeInput : FuseInput ℝ).model_index_map 0 0)).z
        - (col (edgeInput : FuseInput ℝ).frame_t.points
            ((edgeInput : FuseInput ℝ).frame_index_map 0 0)).z|
      = (edgeInput : FuseInput ℝ).fusion_dist_thresh ∧
    fuse Real.sqrt edgeInput edgeModel = (edgeModel : PointCloud ℝ) := by
  have hd : |(5 / 4 : ℝ) - 1| = 1 / 4 := by norm_num [abs_of_nonneg]
  have hc : ∀ p ∈ pixels (edgeInput : FuseInput ℝ).w (edgeInput : FuseInput ℝ).h,
      ¬ isCorrespondence (edgeInput : FuseInput ℝ) p := by
    intro p _ h
    have := h.2.2
    simp [depthClose, edgeInput, onePoint, col, hd] at this
  have hs : ∀ p ∈ pixels (edgeInput : FuseInput ℝ).w (edgeInput : FuseInput ℝ).h,
      ¬ isStaged (edgeInput : FuseInput ℝ) p := by
    intro p _ h
    have := h.2
    simp [edgeInput, empty] at this
  refine ⟨by simp [edgeInput, empty], by simp [edgeInput, empty], edge_mismatch, ?_⟩
  unfold fuse
  rw [fuseOrder_eq _ _ _ _ (by simp [length_pixels]), foldl_modelStep_id _ _ _ _ hc,
    stagedCloud_of_none _ _ hs, append_nil_cloud]

/-- Claim C2 (amended): at a pixel whose two cells are non-empty, whatever subtraction
`sub` computes the mismatch `model_depth - view_depth`, the step blends the model
point when the absolute value of the computed mismatch is strictly below the
threshold, and otherwise leaves the model, the staging buffer and its counter as they
are; in particular nothing is blended, staged or appended when the computed mismatch
equals the threshold. -/
theorem depth_threshold_strict (sub : α → α → α) (sqrt : α → α) (I : FuseInput α)
    (s : FuseState α) (p : Nat × Nat) (hf : I.frame_index_map p.1 p.2 ≠ empty)
    (hm : I.model_index_map p.1 p.2 ≠ empty) :
    (|sub (col I.model_t.points (I.model_index_map p.1 p.2)).z
        (col I.frame_t.points (I.frame_index_map p.1 p.2)).z| < I.fusion_dist_thresh →
      pixelStepWith sub sqrt I s p =
        { s with model := blendAt sqrt I s.model (I.model_index_map p.1 p.2)
                    (I.frame_index_map p.1 p.2) }) ∧
    (¬ |sub (col I.model_t.points (I.model_index_map p.1 p.2)).z
        (col I.frame_t.points (I.frame_index_map p.1 p.2)).z| < I.fusion_dist_thresh →
      pixelStepWith sub sqrt I s p = s) ∧
    (|sub (col I.model_t.points (I.model_index_map p.1 p.2)).z
        (col I.frame_t.points (I.frame_index_map p.1 p.2)).z| = I.fusion_dist_thresh →
      pixelStepWith sub sqrt I s p = s) := by
  refine ⟨fun h => ?_, fun h => ?_, fun h => ?_⟩
  · simp [pixelStepWith, hf, hm, h]
  · simp [pixelStepWith, hf, hm, h]
  · have h2 : ¬ |sub (col I.model_t.points (I.model_index_map p.1 p.2)).z
        (col I.frame_t.points (I.frame_index_map p.1 p.2)).z| < I.fusion_dist_thresh := by
      rw [h]
      exact lt_irrefl _
    simp [pixelStepWith, hf, hm, h2]

/-- Witness of `depth_threshold_strict` on `edgeInput`, at the start of the loop, with
the exact subtraction (which is what the source computes on these values): both
cells are non-empty, the mismatch equals the threshold and the step changes nothing. -/
theorem depth_threshold_strict_witness :
    (edgeInput : FuseInput ℝ).frame_index_map 0 0 ≠ empty ∧
    (edgeInput : FuseInput ℝ).model_index_map 0 0 ≠ empty ∧
    |(col (edgeInput : FuseInput ℝ).model_t.points ((edgeInput : FuseInput ℝ).model_index_map 0 0)).z
        - (col (edgeInput : FuseInput ℝ).frame_t.points
            ((edgeInput : FuseInput ℝ).frame_index_map 0 0)).z|
      = (edgeInput : FuseInput ℝ).fusion_dist_thresh ∧
    pixelStepWith (fun a b => a - b) Real.sqrt edgeInput (initState edgeInput edgeModel) (0, 0)
      = initState edgeInput edgeModel :=
  ⟨by simp [edgeInput, empty], by simp [edgeInput, empty], edge_mismatch,
    (depth_threshold_strict (fun a b => a - b) Real.sqrt edgeInput
      (initState edgeInput edgeModel) (0, 0)
      (by simp [edgeInput, empty]) (by simp [edgeInput, empty])).2.2 edge_mismatch⟩

/-- Claim C3: at a correspondence pixel `p` whose model index no other correspondence
pixel targets, the fused model holds at that index the position
`(1 - w) * p_old + w * p_frame` and the color `(1 - w) * c_old + w * c_frame`, for
every order of the steps. -/
theorem blend_position_color (sqrt : α → α) (I : FuseInput α) (model : PointCloud α)
    (ps : List (Nat × Nat)) (p : Nat × Nat) (hperm : ps.Perm (pixels I.w I.h))
    (hp : p ∈ pixels I.w I.h) (hc : isCorrespondence I p)
    (hu : ∀ q ∈ pixels I.w I.h, q ≠ p → isCorrespondence I q →
      I.model_index_map q.1 q.2 ≠ I.model_index_map p.1 p.2)
    (hi : I.model_index_map p.1 p.2 < model.points.length)
    (hj : I.model_index_map p.1 p.2 < model.colors.length) :
    (fuseOrder sqrt I model ps).points[I.model_index_map p.1 p.2]? =
      some (Vec3.add
        (Vec3.scale (1 - I.fusion_weight) (col model.points (I.model_index_map p.1 p.2)))
        (Vec3.scale I.fusion_weight (col I.frame_t.points (I.frame_index_map p.1 p.2)))) ∧
    (fuseOrder sqrt I model ps).colors[I.model_index_map p.1 p.2]? =
      some (Vec3.add
        (Vec3.scale (1 - I.fusion_weight) (col model.colors (I.model_index_map p.1 p.2)))
        (Vec3.scale I.fusion_weight (col I.frame_t.colors (I.frame_index_map p.1 p.2)))) := by
  obtain ⟨a1, _, a3⟩ := fuseOrder_getElem? sqrt I model ps hperm (I.model_index_map p.1 p.2)
  obtain ⟨b1, _, b3⟩ := foldl_modelStep_unique sqrt I ps model p (hperm.mem_iff.mpr hp)
    ((hperm.nodup_iff).mpr (nodup_pixels I.w I.h)) hc
    (fun q hq => hu q (hperm.mem_iff.mp hq))
  exact ⟨(a1 hi).trans (b1 hi), (a3 hj).trans (b3 hj)⟩

/-- Witness of `blend_position_color` on `mixedInput`, steps in reverse order. -/
theorem blend_position_color_witness :
    (fuseOrder Real.sqrt mixedInput mixedModel [(1, 0), (0, 0)]).points[
        (mixedInput : FuseInput ℝ).model_index_map 0 0]? =
      some (Vec3.add
        (Vec3.scale (1 - (mixedInput : FuseInput ℝ).fusion_weight)
          (col (mixedModel : PointCloud ℝ).points ((mixedInput : FuseInput ℝ).model_index_map 0 0)))
        (Vec3.scale (mixedInput : FuseInput ℝ).fusion_weight
          (col (mixedInput : FuseInput ℝ).frame_t.points
            ((mixedInput : FuseInput ℝ).frame_index_map 0 0)))) ∧
    (fuseOrder Real.sqrt mixedInput mixedModel [(1, 0), (0, 0)]).colors[
        (mixedInput : FuseInput ℝ).model_index_map 0 0]? =
      some (Vec3.add
        (Vec3.scale (1 - (mixedInput : FuseInput ℝ).fusion_weight)
          (col (mixedModel : PointCloud ℝ).colors ((mixedInput : FuseInput ℝ).model_index_map 0 0)))
        (Vec3.scale (mixedInput : FuseInput ℝ).fusion_weight
          (col (mixedInput : FuseInput ℝ).frame_t.colors
            ((mixedInput : FuseInput ℝ).frame_index_map 0 0)))) :=
  blend_position_color Real.sqrt mixedInput mixedModel [(1, 0), (0, 0)] (0, 0) (by decide)
    (by decide) isCorrespondence_mixed
    (by
      intro q hq hne hcq
      have hq2 : q = (0, 0) ∨ q = (1, 0) := by
        have : pixels (mixedInput : FuseInput ℝ).w (mixedInput : FuseInput ℝ).h
            = [(0, 0), (1, 0)] := by decide
        rw [this] at hq
        simpa using hq
      rcases hq2 with e | e
      · exact absurd e hne
      · subst e
        exact absurd rfl hcq.2.1)
    (by simp [mixedInput, mixedModel, onePoint])
    (by simp [mixedInput, mixedModel, onePoint])

/-- Claim C4: for every order of the steps, the points appended by the fusion pass are
exact copies of the frame points (position, normal, color) at pixels of the image
whose frame cell is non-empty and whose model cell is empty; when exactly one pixel
has a non-empty frame cell and its model cell is empty, the count grows by one and
the appended point is that frame point. -/
theorem append_copies_frame (sqrt : α → α) (I : FuseInput α) (model : PointCloud α)
    (ps : List (Nat × Nat)) (hperm : ps.Perm (pixels I.w I.h)) :
    (∃ staged : List (Nat × Nat),
      (∀ p ∈ staged, p ∈ pixels I.w I.h ∧ I.frame_index_map p.1 p.2 ≠ empty ∧
        I.model_index_map p.1 p.2 = empty) ∧
      (fuseOrder sqrt I model ps).points.length = model.points.length + staged.length ∧
      tailFrom (fuseOrder sqrt I model ps) model.points.length model.normals.length
        model.colors.length = staged.map (framePoint I)) ∧
    (∀ p0 ∈ pixels I.w I.h, I.frame_index_map p0.1 p0.2 ≠ empty →
      I.model_index_map p0.1 p0.2 = empty →
      (∀ q ∈ pixels I.w I.h, q ≠ p0 → I.frame_index_map q.1 q.2 = empty) →
      (fuseOrder sqrt I model ps).points.length = model.points.length + 1 ∧
      tailFrom (fuseOrder sqrt I model ps) model.points.length model.normals.length
        model.colors.length = [framePoint I p0]) := by
  have hlen : (fuseOrder sqrt I model ps).points.length
      = model.points.length + (stagedPixels I ps).length := by
    rw [fuseOrder_eq _ _ _ _ (by rw [hperm.length_eq, length_pixels])]
    simp [PointCloud.append, stagedCloud, (foldl_modelStep_length sqrt I ps model).1]
  refine ⟨⟨stagedPixels I ps, ?_, hlen, fuseOrder_tail sqrt I model ps hperm⟩, ?_⟩
  · intro p hp
    obtain ⟨h1, h2⟩ := (mem_stagedPixels I ps p).mp hp
    exact ⟨hperm.mem_iff.mp h1, h2.1, h2.2⟩
  · intro p0 hp0 hf hm hq
    have hs : stagedPixels I ps = [p0] :=
      stagedPixels_single I ps p0 ((hperm.nodup_iff).mpr (nodup_pixels I.w I.h))
        (hperm.mem_iff.mpr hp0) ⟨hf, hm⟩
        (fun q hq1 hne hst => hst.1 (hq q (hperm.mem_iff.mp hq1) hne))
    rw [hlen, fuseOrder_tail sqrt I model ps hperm, hs]
    simp

/-- Witness of `append_copies_frame` on `singleInput`, steps in reverse order: the
count grows from 1 to 2 and the appended point is frame point 0. -/
theorem append_copies_frame_witness :
    (fuseOrder Real.sqrt singleInput singleModel [(1, 0), (0, 0)]).points.length =
      (singleModel : PointCloud ℝ).points.length + 1 ∧
    tailFrom (fuseOrder Real.sqrt singleInput singleModel [(1, 0), (0, 0)])
        (singleModel : PointCloud ℝ).points.length (singleModel : PointCloud ℝ).normals.length
        (singleModel : PointCloud ℝ).colors.length
      = [framePoint (singleInput : FuseInput ℝ) (1, 0)] :=
  (append_copies_frame Real.sqrt singleInput singleModel [(1, 0), (0, 0)] (by decide)).2 (1, 0)
    (by decide) (by simp [singleInput, empty]) (by simp [singleInput])
    (by
      intro q hq hne
      have hq2 : q = (0, 0) ∨ q = (1, 0) := by
        have : pixels (singleInput : FuseInput ℝ).w (singleInput : FuseInput ℝ).h
            = [(0, 0), (1, 0)] := by decide
        rw [this] at hq
        simpa using hq
      rcases hq2 with e | e
      · rw [e]
        simp [singleInput]
      · exact absurd e hne)

/-- Claim C6: for every order of the steps, a model point whose index is the model
cell of no correspondence pixel keeps its index, position, normal and color; when
every frame cell is empty the fusion pass returns the model as it was. -/
theorem fuse_frame_effect (sqrt : α → α) (I : FuseInput α) (model : PointCloud α)
    (ps : List (Nat × Nat)) (hperm : ps.Perm (pixels I.w I.h)) :
    (∀ i, (∀ p ∈ pixels I.w I.h, isCorrespondence I p → I.model_index_map p.1 p.2 ≠ i) →
      (i < model.points.length → (fuseOrder sqrt I model ps).points[i]? = model.points[i]?) ∧
      (i < model.normals.length →
        (fuseOrder sqrt I model ps).normals[i]? = model.normals[i]?) ∧
      (i < model.colors.length → (fuseOrder sqrt I model ps).colors[i]? = model.colors[i]?)) ∧
    ((∀ p ∈ pixels I.w I.h, I.frame_index_map p.1 p.2 = empty) →
      fuseOrder sqrt I model ps = model) := by
  constructor
  · intro i hi
    obtain ⟨a1, a2, a3⟩ := fuseOrder_getElem? sqrt I model ps hperm i
    obtain ⟨b1, b2, b3⟩ := foldl_modelStep_untouched sqrt I ps model i
      (fun p hp => hi p (hperm.mem_iff.mp hp))
    exact ⟨fun h => (a1 h).trans b1, fun h => (a2 h).trans b2, fun h => (a3 h).trans b3⟩
  · intro he
    rw [fuseOrder_eq _ _ _ _ (by rw [hperm.length_eq, length_pixels]),
      foldl_modelStep_id _ _ _ _ (fun p hp hc => hc.1 (he p (hperm.mem_iff.mp hp))),
      stagedCloud_of_none _ _ (fun p hp hs => hs.1 (he p (hperm.mem_iff.mp hp))),
      append_nil_cloud]

/-- Witness of `fuse_frame_effect` on `singleInput`, steps in reverse order: model
point 0 is the target of no correspondence pixel and keeps its position. -/
theorem fuse_frame_effect_witness :
    (fuseOrder Real.sqrt singleInput singleModel [(1, 0), (0, 0)]).points[0]? =
      (singleModel : PointCloud ℝ).points[0]? :=
  ((fuse_frame_effect Real.sqrt singleInput singleModel [(1, 0), (0, 0)] (by decide)).1 0
    (by
      intro p hp hc
      have hp2 : p = (0, 0) ∨ p = (1, 0) := by
        have : pixels (singleInput : FuseInput ℝ).w (singleInput : FuseInput ℝ).h
            = [(0, 0), (1, 0)] := by decide
        rw [this] at hp
        simpa using hp
      rcases hp2 with e | e
      · rw [e] at hc
        exact absurd (by simp [singleInput]) hc.1
      · rw [e] at hc
        exact absurd (by simp [singleInput]) hc.2.1)).1
    (by simp [singleModel, onePoint])

/-- Claim C10: for every order of the steps, before each step the staging counter
`app_ind` is strictly below `w * h`, the capacity the three staging columns keep
throughout, and the final counter used for the trim is at most `w * h`. -/
theorem staging_within_capacity (sqrt : α → α) (I : FuseInput α) (model : PointCloud α)
    (ps : List (Nat × Nat)) (hperm : ps.Perm (pixels I.w I.h)) :
    (∀ k, k < ps.length →
      (runLoop sqrt I model (ps.take k)).app_ind < I.w * I.h ∧
      (runLoop sqrt I model (ps.take k)).to_append.points.length = I.w * I.h ∧
      (runLoop sqrt I model (ps.take k)).to_append.normals.length = I.w * I.h ∧
      (runLoop sqrt I model (ps.take k)).to_append.colors.length = I.w * I.h) ∧
    (runLoop sqrt I model ps).app_ind ≤ I.w * I.h := by
  have hl : ps.length = I.w * I.h := by rw [hperm.length_eq, length_pixels]
  constructor
  · intro k hk
    have h1 := runLoop_app_ind_le sqrt I model (ps.take k)
    have h2 : (ps.take k).length ≤ k := by simp
    obtain ⟨c1, c2, c3⟩ := foldl_pixelStep_capacity sqrt I (ps.take k) (initState I model)
    refine ⟨by omega, ?_, ?_, ?_⟩
    · unfold runLoop
      rw [c1]
      simp [initState, initBuffer]
    · unfold runLoop
      rw [c2]
      simp [initState, initBuffer]
    · unfold runLoop
      rw [c3]
      simp [initState, initBuffer]
  · have h1 := runLoop_app_ind_le sqrt I model ps
    omega

/-- Witness of `staging_within_capacity` on `mixedInput`, steps in reverse order. -/
theorem staging_within_capacity_witness :
    [(1, 0), (0, 0)].Perm (pixels (mixedInput : FuseInput ℝ).w (mixedInput : FuseInput ℝ).h) ∧
    (runLoop Real.sqrt mixedInput mixedModel [(1, 0), (0, 0)]).app_ind ≤
      (mixedInput : FuseInput ℝ).w * (mixedInput : FuseInput ℝ).h :=
  ⟨by decide,
    (staging_within_capacity Real.sqrt mixedInput mixedModel [(1, 0), (0, 0)] (by decide)).2⟩

/-- Claim C5, as stated, fails: on `overlapInput` the two pixels lie in different rows
and are correspondences on model point 0, and the two orders of the two steps leave
different positions at model point 0. -/
theorem fuse_order_counterexample :
    [(0, 0), (0, 1)].Perm (pixels (overlapInput : FuseInput ℝ).w (overlapInput : FuseInput ℝ).h) ∧
    [(0, 1), (0, 0)].Perm (pixels (overlapInput : FuseInput ℝ).w (overlapInput : FuseInput ℝ).h) ∧
    (fuseOrder Real.sqrt overlapInput overlapModel [(0, 0), (0, 1)]).points[0]? ≠
      (fuseOrder Real.sqrt overlapInput overlapModel [(0, 1), (0, 0)]).points[0]? := by
  have c0 : isCorrespondence (overlapInput : FuseInput ℝ) (0, 0) := by
    refine ⟨?_, ?_, ?_⟩
    · simp [overlapInput, empty]
    · simp [overlapInput, empty]
    · simp [depthClose, overlapInput, onePoint, col]
  have c1 : isCorrespondence (overlapInput : FuseInput ℝ) (0, 1) := by
    refine ⟨?_, ?_, ?_⟩
    · simp [overlapInput, empty]
    · simp [overlapInput, empty]
    · simp [depthClose, overlapInput, onePoint, col]
  refine ⟨by decide, by decide, ?_⟩
  rw [(fuseOrder_getElem? Real.sqrt overlapInput overlapModel _ (by decide) 0).1
      (by simp [overlapModel, onePoint]),
    (fuseOrder_getElem? Real.sqrt overlapInput overlapModel _ (by decide) 0).1
      (by simp [overlapModel, onePoint])]
  simp only [List.foldl_cons, List.foldl_nil, modelStep, c0, c1, if_true]
  simp [blendAt, overlapInput, overlapModel, onePoint, col, Vec3.add, Vec3.scale,
    FuseInput.fusion_weight_compl]

/-- Claim C5 (amended): when no two distinct correspondence pixels share a model
index, any two orders of the steps leave the same values (position, normal, color)
at the pre-existing model points, and the two appended tails are permutations of
each other. -/
theorem fuse_order_independent (sqrt : α → α) (I : FuseInput α) (model : PointCloud α)
    (ps qs : List (Nat × Nat)) (hp : ps.Perm (pixels I.w I.h))
    (hq : qs.Perm (pixels I.w I.h))
    (hinj : ∀ x ∈ pixels I.w I.h, ∀ y ∈ pixels I.w I.h, isCorrespondence I x →
      isCorrespondence I y → x ≠ y →
      I.model_index_map x.1 x.2 ≠ I.model_index_map y.1 y.2) :
    (fuseOrder sqrt I model ps).points.take model.points.length =
      (fuseOrder sqrt I model qs).points.take model.points.length ∧
    (fuseOrder sqrt I model ps).normals.take model.normals.length =
      (fuseOrder sqrt I model qs).normals.take model.normals.length ∧
    (fuseOrder sqrt I model ps).colors.take model.colors.length =
      (fuseOrder sqrt I model qs).colors.take model.colors.length ∧
    (tailFrom (fuseOrder sqrt I model ps) model.points.length model.normals.length
        model.colors.length).Perm
      (tailFrom (fuseOrder sqrt I model qs) model.points.length model.normals.length
        model.colors.length) := by
  have hpq : ps.Perm qs := hp.trans hq.symm
  have hm : ps.foldl (modelStep sqrt I) model = qs.foldl (modelStep sqrt I) model :=
    foldl_modelStep_perm sqrt I ps qs model hpq
      (fun x hx y hy => hinj x (hp.mem_iff.mp hx) y (hp.mem_iff.mp hy))
  refine ⟨?_, ?_, ?_, ?_⟩
  · rw [fuseOrder_eq _ _ _ _ (by rw [hp.length_eq, length_pixels]),
      fuseOrder_eq _ _ _ _ (by rw [hq.length_eq, length_pixels]), hm]
    obtain ⟨h1, _, _⟩ := foldl_modelStep_length sqrt I qs model
    simp only [PointCloud.append]
    rw [List.take_left' h1, List.take_left' h1]
  · rw [fuseOrder_eq _ _ _ _ (by rw [hp.length_eq, length_pixels]),
      fuseOrder_eq _ _ _ _ (by rw [hq.length_eq, length_pixels]), hm]
    obtain ⟨_, h2, _⟩ := foldl_modelStep_length sqrt I qs model
    simp only [PointCloud.append]
    rw [List.take_left' h2, List.take_left' h2]
  · rw [fuseOrder_eq _ _ _ _ (by rw [hp.length_eq, length_pixels]),
      fuseOrder_eq _ _ _ _ (by rw [hq.length_eq, length_pixels]), hm]
    obtain ⟨_, _, h3⟩ := foldl_modelStep_length sqrt I qs model
    simp only [PointCloud.append]
    rw [List.take_left' h3, List.take_left' h3]
  · rw [fuseOrder_tail sqrt I model ps hp, fuseOrder_tail sqrt I model qs hq]
    exact (hpq.filter _).map _

/-- Witness of `fuse_order_independent` on `rowsInput`, whose two pixels lie in
different rows: the two orders of its two steps leave the same position at the
pre-existing model point. -/
theorem fuse_order_independent_witness :
    (fuseOrder Real.sqrt rowsInput rowsModel [(0, 0), (0, 1)]).points.take
        (rowsModel : PointCloud ℝ).points.length =
      (fuseOrder Real.sqrt rowsInput rowsModel [(0, 1), (0, 0)]).points.take
        (rowsModel : PointCloud ℝ).points.length :=
  (fuse_order_independent Real.sqrt rowsInput rowsModel [(0, 0), (0, 1)] [(0, 1), (0, 0)]
    (by decide) (by decide)
    (by
      intro x hx y hy hcx hcy hne
      have hpx : pixels (rowsInput : FuseInput ℝ).w (rowsInput : FuseInput ℝ).h
          = [(0, 0), (0, 1)] := by decide
      rw [hpx] at hx hy
      have hx2 : x = (0, 0) ∨ x = (0, 1) := by simpa using hx
      have hy2 : y = (0, 0) ∨ y = (0, 1) := by simpa using hy
      rcases hx2 with ex | ex
      · rcases hy2 with ey | ey
        · exact absurd (ex.trans ey.symm) hne
        · rw [ey] at hcy
          exact absurd rfl hcy.2.1
      · rw [ex] at hcx
        exact absurd rfl hcx.2.1)).1

/-- Claim C8, as stated, fails: on `opposedInput` (fusion weight 1/2, unit normals
`(0,0,1)` in the model and `(0,0,-1)` in the frame) the pixel is a correspondence
and the blended normal of model point 0 has norm 0 after the fusion pass. -/
theorem unit_normal_counterexample :
    isCorrespondence (opposedInput : FuseInput ℝ) (0, 0) ∧
    0 < (opposedInput : FuseInput ℝ).fusion_weight ∧
    (opposedInput : FuseInput ℝ).fusion_weight < 1 ∧
    (col (opposedModel : PointCloud ℝ).normals 0).squaredNorm = 1 ∧
    (col (opposedInput : FuseInput ℝ).frame_t.normals 0).squaredNorm = 1 ∧
    Vec3.norm Real.sqrt (col (fuse Real.sqrt opposedInput opposedModel).normals 0) ≠ 1 := by
  have c0 : isCorrespondence (opposedInput : FuseInput ℝ) (0, 0) := by
    refine ⟨?_, ?_, ?_⟩
    · simp [opposedInput, empty]
    · simp [opposedInput, empty]
    · simp [depthClose, opposedInput, onePoint, col]
  have hp : pixels (opposedInput : FuseInput ℝ).w (opposedInput : FuseInput ℝ).h = [(0, 0)] := by
    decide
  have hz : col (fuse Real.sqrt opposedInput opposedModel).normals 0 = Vec3.zero := by
    apply (col_congr _ _ 0 ((fuseOrder_getElem? Real.sqrt opposedInput opposedModel _
      (List.Perm.refl _) 0).2.1 (by simp [opposedModel, onePoint]))).trans
    rw [hp]
    simp only [List.foldl_cons, List.foldl_nil, modelStep, c0, if_true]
    simp [blendAt, opposedInput, opposedModel, onePoint, col, Vec3.add, Vec3.scale,
      FuseInput.fusion_weight_compl, Vec3.normalized, Vec3.squaredNorm, Vec3.zero]
    norm_num
  refine ⟨c0, ?_, ?_, ?_, ?_, ?_⟩
  · simp [opposedInput]
  · simp [opposedInput]; norm_num
  · simp [opposedModel, onePoint, col, Vec3.squaredNorm]
  · simp [opposedInput, onePoint, col, Vec3.squaredNorm]
  · rw [hz]
    simp [Vec3.norm, Vec3.squaredNorm, Vec3.zero]

/-- Claim C8 (amended): over the reals and for every order of the steps, the normal of
a model point that is the target of a correspondence pixel has norm exactly 1 or is
the zero column after the fusion pass; at a correspondence pixel whose model index no
other correspondence pixel targets, the norm is exactly 1 whenever the blended column
`(1 - w) * n_old + w * n_frame` is not the zero column. -/
theorem blended_normal_unit_or_zero (I : FuseInput ℝ) (model : PointCloud ℝ)
    (ps : List (Nat × Nat)) (hperm : ps.Perm (pixels I.w I.h)) :
    (∀ i v, (∃ p ∈ pixels I.w I.h, isCorrespondence I p ∧ I.model_index_map p.1 p.2 = i) →
      i < model.normals.length →
      (fuseOrder Real.sqrt I model ps).normals[i]? = some v →
      Vec3.norm Real.sqrt v = 1 ∨ v = Vec3.zero) ∧
    (∀ p ∈ pixels I.w I.h, isCorrespondence I p →
      (∀ q ∈ pixels I.w I.h, q ≠ p → isCorrespondence I q →
        I.model_index_map q.1 q.2 ≠ I.model_index_map p.1 p.2) →
      I.model_index_map p.1 p.2 < model.normals.length →
      Vec3.add
          (Vec3.scale (1 - I.fusion_weight) (col model.normals (I.model_index_map p.1 p.2)))
          (Vec3.scale I.fusion_weight (col I.frame_t.normals (I.frame_index_map p.1 p.2)))
        ≠ Vec3.zero →
      ∃ v, (fuseOrder Real.sqrt I model ps).normals[I.model_index_map p.1 p.2]? = some v ∧
        Vec3.norm Real.sqrt v = 1) := by
  constructor
  · rintro i v ⟨p, hp, hc, rfl⟩ hi hv
    rw [(fuseOrder_getElem? Real.sqrt I model ps hperm _).2.1 hi] at hv
    exact foldl_modelStep_normal I ps model _
      (Or.inr ⟨p, hperm.mem_iff.mpr hp, hc, rfl⟩) v hv
  · intro p hp hc hu hi hne
    refine ⟨_, ((fuseOrder_getElem? Real.sqrt I model ps hperm _).2.1 hi).trans
      ((foldl_modelStep_unique Real.sqrt I ps model p (hperm.mem_iff.mpr hp)
        ((hperm.nodup_iff).mpr (nodup_pixels I.w I.h)) hc
        (fun q hq => hu q (hperm.mem_iff.mp hq))).2.1 hi), ?_⟩
    apply norm_normalized_of_pos
    by_contra hpos
    exact hne (eq_zero_of_squaredNorm_le _ hpos)

/-- Witness of `blended_normal_unit_or_zero` on `mixedInput`, steps in reverse order:
the blended normal of model point 0 is not zero and its norm after the pass is 1. -/
theorem blended_normal_unit_or_zero_witness :
    ∃ v, (fuseOrder Real.sqrt mixedInput mixedModel [(1, 0), (0, 0)]).normals[
        (mixedInput : FuseInput ℝ).model_index_map 0 0]? = some v ∧
      Vec3.norm Real.sqrt v = 1 :=
  (blended_normal_unit_or_zero mixedInput mixedModel [(1, 0), (0, 0)] (by decide)).2
    (0, 0) (by decide) isCorrespondence_mixed
    (by
      intro q hq hne hcq
      have hq2 : q = (0, 0) ∨ q = (1, 0) := by
        have : pixels (mixedInput : FuseInput ℝ).w (mixedInput : FuseInput ℝ).h
            = [(0, 0), (1, 0)] := by decide
        rw [this] at hq
        simpa using hq
      rcases hq2 with e | e
      · exact absurd e hne
      · subst e
        exact absurd rfl hcq.2.1)
    (by simp [mixedInput, mixedModel, onePoint])
    (by
      intro h
      have hz := congrArg Vec3.z h
      simp [mixedInput, mixedModel, onePoint, col, Vec3.add, Vec3.scale, Vec3.zero] at hz
      norm_num at hz)

/-- Claim C9: over the reals and for every order of the steps, when the transformed
frame and the transformed model are the model itself (identity pose, frame equal to
the model point for point), the model normals are unit columns, the two index maps
agree on the image and the threshold is positive, every pixel with a non-empty cell
is a correspondence and the fusion pass returns the model as it was. -/
theorem reobservation_noop (I : FuseInput ℝ) (model : PointCloud ℝ)
    (ps : List (Nat × Nat)) (hperm : ps.Perm (pixels I.w I.h))
    (hf : I.frame_t = model) (hm : I.model_t = model)
    (hmap : ∀ p ∈ pixels I.w I.h, I.frame_index_map p.1 p.2 = I.model_index_map p.1 p.2)
    (ht : 0 < I.fusion_dist_thresh)
    (hunit : ∀ n ∈ model.normals, n.squaredNorm = 1) :
    (∀ p ∈ pixels I.w I.h, I.frame_index_map p.1 p.2 ≠ empty → isCorrespondence I p) ∧
    fuseOrder Real.sqrt I model ps = model := by
  have hcorr : ∀ p ∈ pixels I.w I.h, I.frame_index_map p.1 p.2 ≠ empty →
      isCorrespondence I p := by
    intro p hp hne
    refine ⟨hne, (hmap p hp) ▸ hne, ?_⟩
    unfold depthClose
    rw [hf, hm, hmap p hp]
    simpa using ht
  refine ⟨hcorr, ?_⟩
  rw [fuseOrder_eq _ _ _ _ (by rw [hperm.length_eq, length_pixels]),
    stagedCloud_of_none _ _ (fun p hp hs =>
      hs.1 ((hmap p (hperm.mem_iff.mp hp)).trans hs.2)),
    append_nil_cloud]
  apply foldl_fixed
  intro p hp
  unfold modelStep
  split
  · rw [hmap p (hperm.mem_iff.mp hp)]
    exact blendAt_self I model _ hf hunit
  · rfl

/-- Witness of `reobservation_noop` on `sameInput`, steps in reverse order. -/
theorem reobservation_noop_witness :
    fuseOrder Real.sqrt sameInput sameModel [(1, 0), (0, 0)] = (sameModel : PointCloud ℝ) :=
  (reobservation_noop sameInput sameModel [(1, 0), (0, 0)] (by decide) rfl rfl
    (fun _ _ => rfl) (by simp [sameInput])
    (by
      intro n hn
      simp only [sameModel, List.mem_cons, List.mem_singleton, List.not_mem_nil, or_false] at hn
      rcases hn with e | e <;> rw [e] <;> simp [Vec3.squaredNorm])).2

/-- Claim C7, as stated, fails: after the run `clearRun` (capture, seed, then the `d`
key) the model is empty and the pose is not the identity, and it is still not the
identity after one more iteration without any key. -/
theorem pose_identity_counterexample :
    (run Real.sqrt (driftExternals : Externals ℝ ℝ) mainSettings clearRun).model.isEmpty = true ∧
    (run Real.sqrt (driftExternals : Externals ℝ ℝ) mainSettings clearRun).cam_pose ≠
      (driftExternals : Externals ℝ ℝ).identity ∧
    (run Real.sqrt (driftExternals : Externals ℝ ℝ) mainSettings clearRunThenIdle).model.isEmpty
      = true ∧
    (run Real.sqrt (driftExternals : Externals ℝ ℝ) mainSettings clearRunThenIdle).cam_pose ≠
      (driftExternals : Externals ℝ ℝ).identity := by
  refine ⟨?_, ?_, ?_, ?_⟩ <;>
    simp [run, clearRunThenIdle, clearRun, tick, localize, mapStep, handleKeys, capture_callback,
      clear_callback, initLoop, PointCloud.isEmpty, PointCloud.clear, onePoint,
      driftExternals]

/-- Claim C7 (amended): along a run in which the `d` key was never handled, an empty
model has the identity pose at every iteration boundary. The clear callback empties
the model and leaves the pose as it is; an iteration that handles `d` ends with an
empty model; while the model is empty, an iteration with the capture flag set ends
with the identity pose and an iteration without it leaves the pose as it is. -/
theorem pose_identity_while_unseeded {P : Type} (sqrt : α → α) (E : Externals α P)
    (c : Settings α) :
    (∀ is : List (TickInput α), (∀ i ∈ is, i.keyD = false) →
      (run sqrt E c is).model.isEmpty = true → (run sqrt E c is).cam_pose = E.identity) ∧
    (∀ s : LoopState α P, (clear_callback s).model.isEmpty = true ∧
      (clear_callback s).cam_pose = s.cam_pose) ∧
    (∀ (s : LoopState α P) (i : TickInput α), i.keyD = true →
      (tick sqrt E c s i).model.isEmpty = true) ∧
    (∀ (s : LoopState α P) (i : TickInput α), s.model.isEmpty = true → s.capture = true →
      (tick sqrt E c s i).cam_pose = E.identity) ∧
    (∀ (s : LoopState α P) (i : TickInput α), s.model.isEmpty = true → s.capture = false →
      (tick sqrt E c s i).cam_pose = s.cam_pose) := by
  refine ⟨?_, ?_, ?_, ?_, ?_⟩
  · intro is hd
    exact foldl_tick_keeps_identity sqrt E c is (initLoop E) (fun _ => rfl) hd
  · intro s
    simp [clear_callback, PointCloud.clear, PointCloud.isEmpty]
  · intro s i hd
    simp [tick, handleKeys, hd, clear_callback, PointCloud.clear, PointCloud.isEmpty]
  · intro s i hm hc
    cases hA : i.keyA <;> cases hD : i.keyD <;>
      simp [tick, handleKeys, localize, mapStep, hm, hc, hA, hD, clear_callback,
        capture_callback]
  · intro s i hm hc
    cases hA : i.keyA <;> cases hD : i.keyD <;>
      simp [tick, handleKeys, localize, mapStep, hm, hc, hA, hD, clear_callback,
        capture_callback]

/-- Witness of `pose_identity_while_unseeded`. After `idleRun`, in which `d` is never
pressed, the model is empty and the pose is the identity. After `recaptureRun` the
model is empty, the capture flag is set and the pose is not the identity; the next
iteration seeds the model and ends with the identity pose. -/
theorem pose_identity_while_unseeded_witness :
    (∀ i ∈ (idleRun : List (TickInput ℝ)), i.keyD = false) ∧
    (run Real.sqrt (driftExternals : Externals ℝ ℝ) mainSettings idleRun).model.isEmpty = true ∧
    (run Real.sqrt (driftExternals : Externals ℝ ℝ) mainSettings idleRun).cam_pose =
      (driftExternals : Externals ℝ ℝ).identity ∧
    (run Real.sqrt (driftExternals : Externals ℝ ℝ) mainSettings recaptureRun).model.isEmpty
      = true ∧
    (run Real.sqrt (driftExternals : Externals ℝ ℝ) mainSettings recaptureRun).capture = true ∧
    (run Real.sqrt (driftExternals : Externals ℝ ℝ) mainSettings recaptureRun).cam_pose ≠
      (driftExternals : Externals ℝ ℝ).identity ∧
    (tick Real.sqrt (driftExternals : Externals ℝ ℝ) mainSettings
        (run Real.sqrt (driftExternals : Externals ℝ ℝ) mainSettings recaptureRun)
        idleTick).cam_pose = (driftExternals : Externals ℝ ℝ).identity := by
  have h1 : ∀ i ∈ (idleRun : List (TickInput ℝ)), i.keyD = false := by simp [idleRun]
  have h2 : (run Real.sqrt (driftExternals : Externals ℝ ℝ) mainSettings idleRun).model.isEmpty
      = true := by
    simp [run, idleRun, tick, localize, mapStep, handleKeys, capture_callback, initLoop,
      PointCloud.isEmpty]
  have h3 : (run Real.sqrt (driftExternals : Externals ℝ ℝ) mainSettings
      recaptureRun).model.isEmpty = true := by
    simp [run, recaptureRun, clearRun, tick, localize, mapStep, handleKeys, capture_callback,
      clear_callback, initLoop, PointCloud.isEmpty, PointCloud.clear, onePoint]
  have h4 : (run Real.sqrt (driftExternals : Externals ℝ ℝ) mainSettings
      recaptureRun).capture = true := by
    simp [run, recaptureRun, clearRun, tick, localize, mapStep, handleKeys, capture_callback,
      clear_callback, initLoop, PointCloud.isEmpty, PointCloud.clear, onePoint]
  have h5 : (run Real.sqrt (driftExternals : Externals ℝ ℝ) mainSettings
      recaptureRun).cam_pose ≠ (driftExternals : Externals ℝ ℝ).identity := by
    simp [run, recaptureRun, clearRun, tick, localize, mapStep, handleKeys, capture_callback,
      clear_callback, initLoop, PointCloud.isEmpty, PointCloud.clear, onePoint,
      driftExternals]
  exact ⟨h1, h2,
    (pose_identity_while_unseeded Real.sqrt (driftExternals : Externals ℝ ℝ)
      mainSettings).1 idleRun h1 h2,
    h3, h4, h5,
    (pose_identity_while_unseeded Real.sqrt (driftExternals : Externals ℝ ℝ)
      mainSettings).2.2.2.1 _ idleTick h3 h4⟩

end Claims

end Fusion
